import Mathlib

/-!
Shallow embedding of `pyomo/dae/init_cond.py`.

The three functions of the source file — `deactivate_model_at`,
`get_inconsistent_initial_conditions` and `solve_consistent_initial_conditions`
— are translated here as pure Lean functions over an explicit model of the
component hierarchy.  The helpers they call (`is_explicitly_indexed_by`,
`is_in_block_indexed_by`, `get_index_set_except` from `pyomo.dae.set_utils`,
and the pyomo component API) live outside the source under verification, so
they are represented as oracle data carried by each component: an
explicit-indexing flag, an implicit-indexing flag, the complement index list
(`set_except`) and a finite lookup table mapping a pair
`(complement index, target point)` to the id of the `ComponentData` stored
there (`none` models a `KeyError` on `comp[index]`, i.e. a skipped entry).

Mutable activation state is passed explicitly: the state is the `Finset` of
ids of ComponentData whose `active` flag is currently `false` (everything not
in the set is active).  Constraint bodies and bounds are embedded as integers (the source
evaluates them to floats; only subtraction and order comparison are used, so
an ordered-ring carrier is enough and keeps everything decidable).
-/

namespace InitCond

/-- The two component kinds traversed by the source
(`component_objects([Block, Constraint], ...)`). -/
inductive Kind
  | constraintKind
  | blockKind
deriving DecidableEq, Repr

/-- Lookup in the finite table of a component: `tblGet tbl ci pt` is the
ComponentData id stored at index `index_getter(ci, pt)`, or `none` when the
lookup raises `KeyError` in the source. -/
def tblGet : List ((Nat × Nat) × Nat) → Nat → Nat → Option Nat
  | [], _, _ => none
  | (k, v) :: rest, ci, pt => if k = (ci, pt) then some v else tblGet rest ci pt

/-- One indexed component (a `Constraint` or a `Block`).  `cid` is the Python
object identity (`id(comp)`), used by the dedup set in `deactivate_model_at`.
`isExplicit` is the oracle value of `is_explicitly_indexed_by(comp, cset)` and
`isImplicit` the oracle value of `is_in_block_indexed_by(comp, cset)`;
`setExcept` is the complement index set and `lookupTbl` realises
`comp[index_getter(ci, pt)]`. -/
structure Component where
  cid : Nat
  cname : String
  kind : Kind
  active : Bool
  isExplicit : Bool
  isImplicit : Bool
  setExcept : List Nat
  lookupTbl : List ((Nat × Nat) × Nat)
deriving DecidableEq, Repr

/-- The model: the flat enumeration that `component_objects` yields from the
root block, plus per-ComponentData constraint values (body, lower, upper) and,
for Block-kind data, the ids of the active constraint data they own
(`component_data_objects(Constraint, ...)`). -/
structure Model where
  comps : List Component
  conVals : List (Nat × (Int × Int × Int))
  children : List (Nat × List Nat)
deriving DecidableEq

/-- `(body, lower, upper)` of a constraint ComponentData. -/
def valsOf : List (Nat × (Int × Int × Int)) → Nat → (Int × Int × Int)
  | [], _ => (0, 0, 0)
  | (k, v) :: rest, d => if k = d then v else valsOf rest d

/-- Constraint data ids owned by a Block-kind ComponentData. -/
def childrenOf : List (Nat × List Nat) → Nat → List Nat
  | [], _ => []
  | (k, l) :: rest, d => if k = d then l else childrenOf rest d

/-- The ordered target set (`ContinuousSet`): its name, its points in order,
and the discretization scheme tag from `get_discretization_info()['scheme']`. -/
structure CSet where
  sname : String
  pts : List Nat
  scheme : String
deriving DecidableEq, Repr

/-- The warning string built by `index_warning` in the source. -/
def index_warning (nm : String) (ci pt : Nat) : String :=
  "WARNING: " ++ nm ++ " has no index (" ++ toString ci ++ ", " ++ toString pt ++ ")"

/-- Errors raised by `deactivate_model_at`: the `ValueError` for a point not
in the ContinuousSet, and the propagated `KeyError` when `allow_skip` is
false. -/
inductive DErr
  | invalidPoint (pt : Nat)
  | keyError (nm : String) (ci : Nat) (pt : Nat)
deriving DecidableEq, Repr

/-- Result of (a stage of) `deactivate_model_at`: the final activation state
(ids of inactive ComponentData), the `deactivated` dictionary (association
list point ↦ ids deactivated there), the warnings printed so far, and the
error that aborted the run, if any.  Mutations performed before an error
persist, exactly as in the source. -/
structure DRes where
  state : Finset Nat
  deact : List (Nat × List Nat)
  warns : List String
  err : Option DErr
deriving DecidableEq

/-- The dictionary comprehension over the requested points. -/
def initMap (pts : List Nat) : List (Nat × List Nat) :=
  pts.map (fun pt => (pt, []))

/-- `deactivated[pt].append(d)`: append to the first entry with key `pt`. -/
def addTo : List (Nat × List Nat) → Nat → Nat → List (Nat × List Nat)
  | [], _, _ => []
  | (k, l) :: rest, pt, d =>
    if k = pt then (k, l ++ [d]) :: rest else (k, l) :: addTo rest pt d

/-- `deactivated[q]` (first entry with key `q`; `[]` when absent). -/
def mpGet : List (Nat × List Nat) → Nat → List Nat
  | [], _ => []
  | (k, l) :: rest, q => if k = q then l else mpGet rest q

/-- Whether `q` is a key of the dictionary. -/
def isKey (mp : List (Nat × List Nat)) (q : Nat) : Prop :=
  q ∈ mp.map Prod.fst

instance (mp : List (Nat × List Nat)) (q : Nat) : Decidable (isKey mp q) := by
  unfold isKey; infer_instance

/-- All ComponentData ids recorded anywhere in the dictionary. -/
def allIds : List (Nat × List Nat) → List Nat
  | [] => []
  | (_, l) :: rest => l ++ allIds rest

/-- The inner loop `for pt in pts` of `deactivate_model_at`, for a fixed
component and a fixed complement index `ci`:

    index = index_getter(non_cset_index, pt)
    try:
        comp[index].deactivate()
        deactivated[pt].append(comp[index])
    except KeyError:
        if not suppress_warnings: print(index_warning(comp.name, index))
        if not allow_skip: raise
        continue
-/
def procPts (c : Component) (ci : Nat) :
    List Nat → Bool → Bool → Finset Nat → List (Nat × List Nat) → List String → DRes
  | [], _, _, st, mp, ws => ⟨st, mp, ws, none⟩
  | pt :: rest, a, sup, st, mp, ws =>
    match tblGet c.lookupTbl ci pt with
    | some d => procPts c ci rest a sup (insert d st) (addTo mp pt d) ws
    | none =>
      let ws' := if sup then ws else ws ++ [index_warning c.cname ci pt]
      if a then procPts c ci rest a sup st mp ws'
      else ⟨st, mp, ws', some (DErr.keyError c.cname ci pt)⟩

/-- The loop `for non_cset_index in non_cset_set` of `deactivate_model_at`. -/
def procCIs (c : Component) :
    List Nat → List Nat → Bool → Bool → Finset Nat → List (Nat × List Nat) → List String → DRes
  | [], _, _, _, st, mp, ws => ⟨st, mp, ws, none⟩
  | ci :: cis, pts, a, sup, st, mp, ws =>
    let r := procPts c ci pts a sup st mp ws
    match r.err with
    | some _ => r
    | none => procCIs c cis pts a sup r.state r.deact r.warns

/-- The loop `for comp in b.component_objects([Block, Constraint],
active=True)` of `deactivate_model_at`, with its `visited` dedup set and the
`is_explicitly_indexed_by ... and not is_in_block_indexed_by ...` guard. -/
def procComps :
    List Component → List Nat → List Nat → Bool → Bool → Finset Nat →
      List (Nat × List Nat) → List String → DRes
  | [], _, _, _, _, st, mp, ws => ⟨st, mp, ws, none⟩
  | c :: rest, visited, pts, a, sup, st, mp, ws =>
    if c.active then
      if c.cid ∈ visited then procComps rest visited pts a sup st mp ws
      else
        if c.isExplicit && !c.isImplicit then
          let r := procCIs c c.setExcept pts a sup st mp ws
          match r.err with
          | some _ => r
          | none => procComps rest (c.cid :: visited) pts a sup r.state r.deact r.warns
        else procComps rest (c.cid :: visited) pts a sup st mp ws
    else procComps rest visited pts a sup st mp ws

/-- The `pts` argument of `deactivate_model_at`: a bare value or a list
(`if type(pts) is not list: pts = [pts]`). -/
inductive PtsArg
  | single (pt : Nat)
  | list (pts : List Nat)
deriving DecidableEq, Repr

def PtsArg.toList : PtsArg → List Nat
  | .single pt => [pt]
  | .list l => l

/-- The validation loop `for pt in pts: if pt not in cset: raise ValueError`:
returns the first requested point that is not in the ContinuousSet. -/
def firstInvalid (cs : List Nat) : List Nat → Option Nat
  | [] => none
  | pt :: rest => if pt ∈ cs then firstInvalid cs rest else some pt

/-- `deactivate_model_at(b, cset, pts, allow_skip=True,
suppress_warnings=False)` from the source, with the activation state passed
explicitly.  `m` plays the role of block `b` (its flat component
enumeration). -/
def deactivate_model_at (m : Model) (cset : CSet) (ptsArg : PtsArg)
    (a sup : Bool) (st : Finset Nat) : DRes :=
  let pts := ptsArg.toList
  match firstInvalid cset.pts pts with
  | some pt => ⟨st, [], [], some (DErr.invalidPoint pt)⟩
  | none => procComps m.comps [] pts a sup st (initMap pts) []

instance instDecEqExcept {ε α : Type} [DecidableEq ε] [DecidableEq α] :
    DecidableEq (Except ε α) := fun x y =>
  match x, y with
  | Except.ok a, Except.ok b =>
    if h : a = b then isTrue (by rw [h])
    else isFalse (by intro hc; cases hc; exact h rfl)
  | Except.ok _, Except.error _ => isFalse (by intro hc; cases hc)
  | Except.error _, Except.ok _ => isFalse (by intro hc; cases hc)
  | Except.error e, Except.error f =>
    if h : e = f then isTrue (by rw [h])
    else isFalse (by intro hc; cases hc; exact h rfl)

/-- Errors raised by `get_inconsistent_initial_conditions`: the propagated
`KeyError` on `con[index]` when `allow_skip` is false, the uncaught `KeyError`
on `blk[index]` in the block loop (the source has no try/except there), and
the `ValueError` raised when an already-collected ComponentData is found
inconsistent again (nested target-set-indexed blocks). -/
inductive IErr
  | keyError (nm : String) (ci : Nat) (pt : Nat)
  | blockKeyError (nm : String) (ci : Nat) (pt : Nat)
  | nesting
deriving DecidableEq, Repr

/-- `value(condata.body) - value(condata.upper) > tol or
value(condata.lower) - value(condata.body) > tol` from the source. -/
def violatedB (m : Model) (tol : Int) (d : Nat) : Bool :=
  let v := valsOf m.conVals d
  decide (v.1 - v.2.2 > tol) || decide (v.2.1 - v.1 > tol)

/-- `ComponentSet.add`: insert while preserving first-insertion order and
ignoring duplicates. -/
def csAdd (acc : List Nat) (d : Nat) : List Nat :=
  if d ∈ acc then acc else acc ++ [d]

/-- Result of a stage of `get_inconsistent_initial_conditions`: the
`inconsistent` ComponentSet in insertion order, warnings, pending error. -/
structure IRes where
  acc : List Nat
  warns : List String
  err : Option IErr
deriving DecidableEq

/-- First loop of `get_inconsistent_initial_conditions`, inner part: for a
fixed constraint component, iterate its complement indices, look up
`con[index_getter(non_time_index, t0)]` (KeyError is skipped or re-raised
according to `allow_skip`) and collect the data when the violation exceeds
the tolerance. -/
def phase1Cis (m : Model) (con : Component) (tol : Int) (t0v : Nat) (a sup : Bool) :
    List Nat → List Nat → List String → IRes
  | [], acc, ws => ⟨acc, ws, none⟩
  | ci :: cis, acc, ws =>
    match tblGet con.lookupTbl ci t0v with
    | none =>
      let ws' := if sup then ws else ws ++ [index_warning con.cname ci t0v]
      if a then phase1Cis m con tol t0v a sup cis acc ws'
      else ⟨acc, ws', some (IErr.keyError con.cname ci t0v)⟩
    | some d =>
      let acc' := if violatedB m tol d then csAdd acc d else acc
      phase1Cis m con tol t0v a sup cis acc' ws

/-- First loop of `get_inconsistent_initial_conditions`:
`for con in model.component_objects(Constraint, active=True)`, skipping
components not explicitly indexed by time and components inside a
time-indexed block. -/
def phase1Comps (m : Model) (tol : Int) (t0v : Nat) (a sup : Bool) :
    List Component → List Nat → List String → IRes
  | [], acc, ws => ⟨acc, ws, none⟩
  | con :: rest, acc, ws =>
    if con.kind = Kind.constraintKind ∧ con.active = true then
      if con.isExplicit = false then phase1Comps m tol t0v a sup rest acc ws
      else if con.isImplicit = true then phase1Comps m tol t0v a sup rest acc ws
      else
        let r := phase1Cis m con tol t0v a sup con.setExcept acc ws
        match r.err with
        | some _ => r
        | none => phase1Comps m tol t0v a sup rest r.acc r.warns
    else phase1Comps m tol t0v a sup rest acc ws

/-- Innermost loop of the second part: `for condata in
blkdata.component_data_objects(Constraint, active=True)`.  A violated data
already in the collected set raises the nested-blocks `ValueError`; otherwise
it is added. -/
def phase2Data (m : Model) (tol : Int) :
    List Nat → List Nat → Except IErr (List Nat)
  | [], acc => Except.ok acc
  | d :: ds, acc =>
    if violatedB m tol d then
      if d ∈ acc then Except.error IErr.nesting
      else phase2Data m tol ds (acc ++ [d])
    else phase2Data m tol ds acc

/-- Second loop of `get_inconsistent_initial_conditions`, inner part: for a
fixed block component iterate its complement indices; `blk[index]` is looked
up with no surrounding try/except, so a missing entry is an uncaught
KeyError.  The block data's active constraint children are then scanned. -/
def phase2Cis (m : Model) (blk : Component) (tol : Int) (t0v : Nat) (st : Finset Nat) :
    List Nat → List Nat → Except IErr (List Nat)
  | [], acc => Except.ok acc
  | ci :: cis, acc =>
    match tblGet blk.lookupTbl ci t0v with
    | none => Except.error (IErr.blockKeyError blk.cname ci t0v)
    | some bd =>
      let kids := (childrenOf m.children bd).filter (fun d => decide (d ∉ st))
      match phase2Data m tol kids acc with
      | Except.error e => Except.error e
      | Except.ok acc' => phase2Cis m blk tol t0v st cis acc'

/-- Second loop of `get_inconsistent_initial_conditions`:
`for blk in model.component_objects(Block, active=True)`, with the same
explicit/implicit guards as the first loop. -/
def phase2Comps (m : Model) (tol : Int) (t0v : Nat) (st : Finset Nat) :
    List Component → List Nat → Except IErr (List Nat)
  | [], acc => Except.ok acc
  | blk :: rest, acc =>
    if blk.kind = Kind.blockKind ∧ blk.active = true then
      if blk.isExplicit = false then phase2Comps m tol t0v st rest acc
      else if blk.isImplicit = true then phase2Comps m tol t0v st rest acc
      else
        match phase2Cis m blk tol t0v st blk.setExcept acc with
        | Except.error e => Except.error e
        | Except.ok acc' => phase2Comps m tol t0v st rest acc'
    else phase2Comps m tol t0v st rest acc

/-- `get_inconsistent_initial_conditions(model, time, tol=1e-8, t0=None,
allow_skip=True, suppress_warnings=False)` from the source.  Returns the
printed warnings and either the list of inconsistent ComponentData ids (in
ComponentSet insertion order) or the error that aborted the call.  `st` is
the current activation state (ids of inactive ComponentData), read by the
`active=True` filter on the block data's constraint children. -/
def get_inconsistent_initial_conditions (m : Model) (time : CSet) (tol : Int)
    (t0 : Option Nat) (a sup : Bool) (st : Finset Nat) :
    List String × Except IErr (List Nat) :=
  let t0v := match t0 with
    | none => time.pts.headI
    | some t => t
  let r1 := phase1Comps m tol t0v a sup m.comps [] []
  match r1.err with
  | some e => (r1.warns, Except.error e)
  | none =>
    match phase2Comps m tol t0v st m.comps r1.acc with
    | Except.error e => (r1.warns, Except.error e)
    | Except.ok res => (r1.warns, Except.ok res)

/-- Error raised by `solve_consistent_initial_conditions` itself
(`NotImplementedError` for an unsupported scheme) or propagated from the
inner `deactivate_model_at` call. -/
inductive SErr
  | unsupportedScheme (tag : String)
  | deactErr (e : DErr)
deriving DecidableEq, Repr

/-- `for comp in deactivated_dict[t]: comp.activate()` for one point. -/
def eraseList : List Nat → Finset Nat → Finset Nat
  | [], st => st
  | d :: ds, st => eraseList ds (st.erase d)

/-- The reactivation loop `for t in timelist: for comp in
deactivated_dict[t]: comp.activate()`. -/
def reactivateAll : List Nat → List (Nat × List Nat) → Finset Nat → Finset Nat
  | [], _, st => st
  | t :: rest, mp, st => reactivateAll rest mp (eraseList (mpGet mp t) st)

/-- `solve_consistent_initial_conditions(model, time, solver)` from the
source.  The external solver is a black box; its `solve` call is modelled by
the opaque result value `res` it would return (the solver does not touch
activation flags).  The function returns the final activation state together
with either the solver result, passed through unmodified, or the error that
aborted the call (activation mutations made before the error persist). -/
def solve_consistent_initial_conditions {α : Type} (m : Model) (time : CSet)
    (res : α) (st : Finset Nat) : Finset Nat × Except SErr α :=
  if time.scheme ≠ "LAGRANGE-RADAU" ∧ time.scheme ≠ "BACKWARD Difference" then
    (st, Except.error (SErr.unsupportedScheme time.scheme))
  else
    let timelist := time.pts.tail
    let dr := deactivate_model_at m time (PtsArg.list timelist) true false st
    match dr.err with
    | some e => (dr.state, Except.error (SErr.deactErr e))
    | none => (reactivateAll timelist dr.deact dr.state, Except.ok res)

/-- Eligibility for direct traversal, as used by both source loops:
the component is yielded by `component_objects(..., active=True)`, is
explicitly indexed by the target set, and is not inside a block that is
itself indexed by the target set. -/
def elig (c : Component) : Prop :=
  c.active = true ∧ c.isExplicit = true ∧ c.isImplicit = false

instance (c : Component) : Decidable (elig c) := by
  unfold elig; infer_instance

/-- Python object identity is faithful: two components of the enumeration
with the same `id()` are the same object.  (In CPython this holds by
construction; the enumeration may still contain duplicates, e.g. due to
references, which is exactly what the `visited` set guards against.) -/
def IdFaithful (m : Model) : Prop :=
  ∀ c1 ∈ m.comps, ∀ c2 ∈ m.comps, c1.cid = c2.cid → c1 = c2

instance (m : Model) : Decidable (IdFaithful m) := by
  unfold IdFaithful; infer_instance

/-- `d` is the ComponentData some eligible component stores at
`(complement index, pt)`. -/
def contribAt (comps : List Component) (pt d : Nat) : Prop :=
  ∃ c ∈ comps, elig c ∧ ∃ ci ∈ c.setExcept, tblGet c.lookupTbl ci pt = some d

instance (comps : List Component) (pt d : Nat) : Decidable (contribAt comps pt d) := by
  unfold contribAt; infer_instance

/-- `d` is stored by some eligible component at some requested point. -/
def contrib (comps : List Component) (pts : List Nat) (d : Nat) : Prop :=
  ∃ pt ∈ pts, contribAt comps pt d

instance (comps : List Component) (pts : List Nat) (d : Nat) :
    Decidable (contrib comps pts d) := by
  unfold contrib; infer_instance

/-- Modelled from the spec: the unsupported model shape of a Block-kind
component explicitly indexed by the target set containing another Block-kind
component also explicitly indexed by the same target set.  The hierarchy
internals that realise containment (`component_data_objects`,
`is_in_block_indexed_by` from `pyomo.dae.set_utils` and the pyomo component
tree) are outside the source under verification, so containment is modelled
by its observable effect described in the spec's invariant: two distinct
explicitly-indexed Block-kind components whose data at the initial point own
a common constraint ComponentData. -/
def nestedExplicitBlocks (m : Model) (t0v : Nat) : Prop :=
  ∃ b1 ∈ m.comps, ∃ b2 ∈ m.comps,
    b1 ≠ b2 ∧ b1.kind = Kind.blockKind ∧ b2.kind = Kind.blockKind ∧
    b1.isExplicit = true ∧ b2.isExplicit = true ∧
    ∃ ci1 ∈ b1.setExcept, ∃ ci2 ∈ b2.setExcept,
      ∃ bd1 ∈ (tblGet b1.lookupTbl ci1 t0v).toList,
        ∃ bd2 ∈ (tblGet b2.lookupTbl ci2 t0v).toList,
          ∃ d ∈ childrenOf m.children bd1, d ∈ childrenOf m.children bd2

instance (m : Model) (t0v : Nat) : Decidable (nestedExplicitBlocks m t0v) := by
  unfold nestedExplicitBlocks; infer_instance

/-! ### Dictionary lemmas -/

theorem isKey_cons (k : Nat) (l : List Nat) (rest : List (Nat × List Nat)) (q : Nat) :
    isKey ((k, l) :: rest) q ↔ q = k ∨ isKey rest q := by
  simp [isKey]

theorem addTo_not_key (mp : List (Nat × List Nat)) (pt d : Nat)
    (h : ¬ isKey mp pt) : addTo mp pt d = mp := by
  induction mp with
  | nil => simp [addTo]
  | cons kv rest ih =>
    obtain ⟨k, l⟩ := kv
    rw [isKey_cons] at h
    push_neg at h
    have hk : ¬ k = pt := fun hh => h.1 hh.symm
    simp [addTo, hk, ih h.2]

theorem keys_addTo (mp : List (Nat × List Nat)) (pt d : Nat) :
    (addTo mp pt d).map Prod.fst = mp.map Prod.fst := by
  induction mp with
  | nil => simp [addTo]
  | cons kv rest ih =>
    obtain ⟨k, l⟩ := kv
    by_cases h : k = pt <;> simp [addTo, h, ih]

theorem isKey_addTo (mp : List (Nat × List Nat)) (pt d q : Nat) :
    isKey (addTo mp pt d) q ↔ isKey mp q := by
  unfold isKey
  rw [keys_addTo]

theorem mpGet_addTo_self (mp : List (Nat × List Nat)) (pt d : Nat)
    (h : isKey mp pt) : mpGet (addTo mp pt d) pt = mpGet mp pt ++ [d] := by
  induction mp with
  | nil => simp [isKey] at h
  | cons kv rest ih =>
    obtain ⟨k, l⟩ := kv
    by_cases hk : k = pt
    · simp [addTo, mpGet, hk]
    · rw [isKey_cons] at h
      have h2 : isKey rest pt := by
        rcases h with h | h
        · exact absurd h.symm hk
        · exact h
      simp [addTo, mpGet, hk, ih h2]

theorem mpGet_addTo_ne (mp : List (Nat × List Nat)) (pt d q : Nat)
    (h : q ≠ pt) : mpGet (addTo mp pt d) q = mpGet mp q := by
  induction mp with
  | nil => simp [addTo]
  | cons kv rest ih =>
    obtain ⟨k, l⟩ := kv
    by_cases hk : k = pt
    · subst hk
      simp [addTo, mpGet, Ne.symm h]
    · by_cases hq : k = q <;> simp [addTo, mpGet, hk, hq, h, ih]

theorem mpGet_not_key (mp : List (Nat × List Nat)) (q : Nat)
    (h : ¬ isKey mp q) : mpGet mp q = [] := by
  induction mp with
  | nil => simp [mpGet]
  | cons kv rest ih =>
    obtain ⟨k, l⟩ := kv
    simp [isKey] at h
    simp [mpGet, Ne.symm h.1, ih (by simp [isKey]; exact h.2)]

theorem mem_allIds_addTo (mp : List (Nat × List Nat)) (pt d x : Nat) :
    x ∈ allIds (addTo mp pt d) ↔ x ∈ allIds mp ∨ (isKey mp pt ∧ x = d) := by
  induction mp with
  | nil => simp [addTo, allIds, isKey]
  | cons kv rest ih =>
    obtain ⟨k, l⟩ := kv
    by_cases hk : k = pt
    · subst hk
      simp [addTo, allIds, isKey]
      tauto
    · simp [addTo, allIds, hk, ih, isKey, Ne.symm hk]
      tauto

theorem mem_allIds_of_mpGet (mp : List (Nat × List Nat)) (q x : Nat)
    (h : x ∈ mpGet mp q) : x ∈ allIds mp := by
  induction mp with
  | nil => simp [mpGet] at h
  | cons kv rest ih =>
    obtain ⟨k, l⟩ := kv
    by_cases hk : k = q <;> simp [mpGet, hk] at h <;> simp [allIds]
    · exact Or.inl h
    · exact Or.inr (ih h)

theorem isKey_initMap (pts : List Nat) (q : Nat) :
    isKey (initMap pts) q ↔ q ∈ pts := by
  simp [isKey, initMap]

theorem mpGet_initMap (pts : List Nat) (q : Nat) :
    mpGet (initMap pts) q = [] := by
  induction pts with
  | nil => simp [initMap, mpGet]
  | cons p rest ih =>
    by_cases h : p = q <;> simp [initMap, mpGet, h] <;> simpa [initMap] using ih

theorem allIds_initMap (pts : List Nat) : allIds (initMap pts) = [] := by
  induction pts with
  | nil => simp [initMap, allIds]
  | cons p rest ih => simpa [initMap, allIds] using ih

/-! ### State-shift lemmas: the control flow, recorded dictionary, warnings
and error of `deactivate_model_at` do not depend on the incoming activation
state, and the final state is the incoming state united with the ids the same
run would deactivate starting from the all-active state. -/

theorem procPts_shift (c : Component) (ci : Nat) (pts : List Nat) (a sup : Bool) :
    ∀ (st : Finset Nat) (mp : List (Nat × List Nat)) (ws : List String),
      procPts c ci pts a sup st mp ws =
        ⟨st ∪ (procPts c ci pts a sup ∅ mp ws).state,
          (procPts c ci pts a sup ∅ mp ws).deact,
          (procPts c ci pts a sup ∅ mp ws).warns,
          (procPts c ci pts a sup ∅ mp ws).err⟩ := by
  induction pts with
  | nil => intro st mp ws; simp [procPts]
  | cons pt rest ih =>
    intro st mp ws
    cases h : tblGet c.lookupTbl ci pt with
    | some d =>
      simp only [procPts, h]
      rw [ih (insert d st), ih (insert d ∅)]
      have : st ∪ (insert d ∅ ∪ (procPts c ci rest a sup ∅ (addTo mp pt d) ws).state) =
          insert d st ∪ (procPts c ci rest a sup ∅ (addTo mp pt d) ws).state := by
        ext x
        simp
        tauto
      rw [this]
    | none =>
      cases a with
      | true =>
        simp only [procPts, h, if_true]
        rw [ih st, ih ∅]
      | false =>
        simp [procPts, h]

theorem procCIs_shift (c : Component) (cis : List Nat) (pts : List Nat) (a sup : Bool) :
    ∀ (st : Finset Nat) (mp : List (Nat × List Nat)) (ws : List String),
      procCIs c cis pts a sup st mp ws =
        ⟨st ∪ (procCIs c cis pts a sup ∅ mp ws).state,
          (procCIs c cis pts a sup ∅ mp ws).deact,
          (procCIs c cis pts a sup ∅ mp ws).warns,
          (procCIs c cis pts a sup ∅ mp ws).err⟩ := by
  induction cis with
  | nil => intro st mp ws; simp [procCIs]
  | cons ci cis ih =>
    intro st mp ws
    simp only [procCIs]
    rw [procPts_shift c ci pts a sup st mp ws]
    cases h : (procPts c ci pts a sup ∅ mp ws).err with
    | some e => simp [h]
    | none =>
      simp only
      rw [ih ((procPts c ci pts a sup ∅ mp ws).state)]
      rw [ih (st ∪ (procPts c ci pts a sup ∅ mp ws).state)]
      simp [Finset.union_assoc]

theorem procComps_shift (comps : List Component) (visited : List Nat)
    (pts : List Nat) (a sup : Bool) :
    ∀ (st : Finset Nat) (mp : List (Nat × List Nat)) (ws : List String),
      procComps comps visited pts a sup st mp ws =
        ⟨st ∪ (procComps comps visited pts a sup ∅ mp ws).state,
          (procComps comps visited pts a sup ∅ mp ws).deact,
          (procComps comps visited pts a sup ∅ mp ws).warns,
          (procComps comps visited pts a sup ∅ mp ws).err⟩ := by
  induction comps generalizing visited with
  | nil => intro st mp ws; simp [procComps]
  | cons c rest ih =>
    intro st mp ws
    cases hac : c.active with
    | false => simp only [procComps, hac]; exact ih visited st mp ws
    | true =>
      by_cases hv : c.cid ∈ visited
      · simp only [procComps, hac, if_true, if_pos hv]
        exact ih visited st mp ws
      · cases hex : c.isExplicit && !c.isImplicit with
        | false =>
          simp only [procComps, hac, if_true, if_neg hv, hex, Bool.false_eq_true,
            if_false]
          exact ih (c.cid :: visited) st mp ws
        | true =>
          simp only [procComps, hac, if_true, if_neg hv, hex, if_pos]
          rw [procCIs_shift c c.setExcept pts a sup st mp ws]
          cases h : (procCIs c c.setExcept pts a sup ∅ mp ws).err with
          | some e => simp [h]
          | none =>
            simp only
            rw [ih (c.cid :: visited) ((procCIs c c.setExcept pts a sup ∅ mp ws).state)]
            rw [ih (c.cid :: visited) (st ∪ (procCIs c c.setExcept pts a sup ∅ mp ws).state)]
            simp [Finset.union_assoc]

theorem keys_procPts (c : Component) (ci : Nat) (pts : List Nat) (a sup : Bool) :
    ∀ (st : Finset Nat) (mp : List (Nat × List Nat)) (ws : List String),
      (procPts c ci pts a sup st mp ws).deact.map Prod.fst = mp.map Prod.fst := by
  induction pts with
  | nil => intro st mp ws; simp [procPts]
  | cons pt rest ih =>
    intro st mp ws
    cases h : tblGet c.lookupTbl ci pt with
    | some d =>
      simp only [procPts, h]
      rw [ih, keys_addTo]
    | none =>
      cases a with
      | true => simp only [procPts, h, if_true]; exact ih st mp _
      | false => simp [procPts, h]

theorem keys_procCIs (c : Component) (cis : List Nat) (pts : List Nat) (a sup : Bool) :
    ∀ (st : Finset Nat) (mp : List (Nat × List Nat)) (ws : List String),
      (procCIs c cis pts a sup st mp ws).deact.map Prod.fst = mp.map Prod.fst := by
  induction cis with
  | nil => intro st mp ws; simp [procCIs]
  | cons ci cis ih =>
    intro st mp ws
    simp only [procCIs]
    cases h : (procPts c ci pts a sup st mp ws).err with
    | some e => simp only [h]; exact keys_procPts c ci pts a sup st mp ws
    | none =>
      simp only [h]
      rw [ih, keys_procPts]

theorem keys_procComps (comps : List Component) (pts : List Nat) (a sup : Bool) :
    ∀ (visited : List Nat) (st : Finset Nat) (mp : List (Nat × List Nat))
      (ws : List String),
      (procComps comps visited pts a sup st mp ws).deact.map Prod.fst = mp.map Prod.fst := by
  induction comps with
  | nil => intro visited st mp ws; simp [procComps]
  | cons c rest ih =>
    intro visited st mp ws
    cases hac : c.active with
    | false => simp only [procComps, hac]; exact ih visited st mp ws
    | true =>
      by_cases hv : c.cid ∈ visited
      · simp only [procComps, hac, if_true, if_pos hv]
        exact ih visited st mp ws
      · cases hex : c.isExplicit && !c.isImplicit with
        | false =>
          simp only [procComps, hac, if_true, if_neg hv, hex, Bool.false_eq_true, if_false]
          exact ih (c.cid :: visited) st mp ws
        | true =>
          simp only [procComps, hac, if_true, if_neg hv, hex, if_pos]
          cases h : (procCIs c c.setExcept pts a sup st mp ws).err with
          | some e => simp only [h]; exact keys_procCIs c c.setExcept pts a sup st mp ws
          | none =>
            simp only [h]
            rw [ih, keys_procCIs]

/-! ### Validation of the requested points -/

theorem firstInvalid_eq_none (cs : List Nat) (pts : List Nat) :
    firstInvalid cs pts = none ↔ ∀ pt ∈ pts, pt ∈ cs := by
  induction pts with
  | nil => simp [firstInvalid]
  | cons pt rest ih =>
    by_cases h : pt ∈ cs <;> simp [firstInvalid, h, ih]

theorem firstInvalid_eq_some (cs : List Nat) (pts : List Nat) (q : Nat)
    (h : firstInvalid cs pts = some q) : q ∈ pts ∧ q ∉ cs := by
  induction pts with
  | nil => simp [firstInvalid] at h
  | cons pt rest ih =>
    by_cases hp : pt ∈ cs
    · simp [firstInvalid, hp] at h
      rcases ih h with ⟨h1, h2⟩
      exact ⟨List.mem_cons_of_mem _ h1, h2⟩
    · simp [firstInvalid, hp] at h
      subst h
      exact ⟨List.mem_cons_self _ _, hp⟩

theorem deactivate_model_at_shift (m : Model) (cset : CSet) (p : PtsArg)
    (a sup : Bool) (st : Finset Nat) :
    deactivate_model_at m cset p a sup st =
      ⟨st ∪ (deactivate_model_at m cset p a sup ∅).state,
        (deactivate_model_at m cset p a sup ∅).deact,
        (deactivate_model_at m cset p a sup ∅).warns,
        (deactivate_model_at m cset p a sup ∅).err⟩ := by
  unfold deactivate_model_at
  cases h : firstInvalid cset.pts p.toList with
  | some pt => simp [h]
  | none =>
    simp only [h]
    exact procComps_shift m.comps [] p.toList a sup st (initMap p.toList) []

/-! ### Characterization of `deactivate_model_at` with `allow_skip = True`:
the run never fails, and the state and dictionary it produces are exactly
described by the lookup tables of the eligible components. -/

theorem procPts_char (c : Component) (ci : Nat) (pts : List Nat) (sup : Bool) :
    ∀ (st : Finset Nat) (mp : List (Nat × List Nat)) (ws : List String),
      (∀ pt ∈ pts, isKey mp pt) →
      ((procPts c ci pts true sup st mp ws).err = none ∧
       (∀ d, d ∈ (procPts c ci pts true sup st mp ws).state ↔
          d ∈ st ∨ ∃ pt ∈ pts, tblGet c.lookupTbl ci pt = some d) ∧
       (∀ q d, d ∈ mpGet (procPts c ci pts true sup st mp ws).deact q ↔
          d ∈ mpGet mp q ∨ (q ∈ pts ∧ tblGet c.lookupTbl ci q = some d)) ∧
       (∀ d, d ∈ allIds (procPts c ci pts true sup st mp ws).deact ↔
          d ∈ allIds mp ∨ ∃ pt ∈ pts, tblGet c.lookupTbl ci pt = some d)) := by
  induction pts with
  | nil =>
    intro st mp ws _
    simp [procPts]
  | cons pt rest ih =>
    intro st mp ws hk
    have hkpt : isKey mp pt := hk pt (List.mem_cons_self _ _)
    cases h : tblGet c.lookupTbl ci pt with
    | some d0 =>
      simp only [procPts, h]
      have hk' : ∀ q ∈ rest, isKey (addTo mp pt d0) q := by
        intro q hq
        rw [isKey_addTo]
        exact hk q (List.mem_cons_of_mem _ hq)
      obtain ⟨ihe, ihs, ihm, iha⟩ := ih (insert d0 st) (addTo mp pt d0) ws hk'
      refine ⟨ihe, ?_, ?_, ?_⟩
      · intro d
        rw [ihs d]
        simp only [Finset.mem_insert, List.mem_cons]
        constructor
        · rintro ((h1 | h1) | ⟨pt', h1, h2⟩)
          · exact Or.inr ⟨pt, Or.inl rfl, by rw [h, h1]⟩
          · exact Or.inl h1
          · exact Or.inr ⟨pt', Or.inr h1, h2⟩
        · rintro (h1 | ⟨pt', h1 | h1, h2⟩)
          · exact Or.inl (Or.inr h1)
          · subst h1
            rw [h] at h2
            exact Or.inl (Or.inl (Option.some_inj.mp h2).symm)
          · exact Or.inr ⟨pt', h1, h2⟩
      · intro q d
        rw [ihm q d]
        by_cases hq : q = pt
        · subst hq
          rw [mpGet_addTo_self mp q d0 hkpt]
          simp only [List.mem_append, List.mem_cons, List.not_mem_nil, or_false,
            List.mem_singleton]
          constructor
          · rintro ((h1 | h1) | ⟨h1, h2⟩)
            · exact Or.inl h1
            · exact Or.inr ⟨Or.inl trivial, by rw [h, h1]⟩
            · exact Or.inr ⟨Or.inl trivial, h2⟩
          · rintro (h1 | ⟨_, h2⟩)
            · exact Or.inl (Or.inl h1)
            · rw [h] at h2
              exact Or.inl (Or.inr (Option.some_inj.mp h2).symm)
        · rw [mpGet_addTo_ne mp pt d0 q (fun hh => hq hh)]
          simp only [List.mem_cons]
          constructor
          · rintro (h1 | ⟨h1, h2⟩)
            · exact Or.inl h1
            · exact Or.inr ⟨Or.inr h1, h2⟩
          · rintro (h1 | ⟨h1 | h1, h2⟩)
            · exact Or.inl h1
            · exact absurd h1 hq
            · exact Or.inr ⟨h1, h2⟩
      · intro d
        rw [iha d, mem_allIds_addTo]
        simp only [List.mem_cons]
        constructor
        · rintro ((h1 | ⟨_, h1⟩) | ⟨pt', h1, h2⟩)
          · exact Or.inl h1
          · exact Or.inr ⟨pt, Or.inl rfl, by rw [h, h1]⟩
          · exact Or.inr ⟨pt', Or.inr h1, h2⟩
        · rintro (h1 | ⟨pt', h1 | h1, h2⟩)
          · exact Or.inl (Or.inl h1)
          · subst h1
            rw [h] at h2
            exact Or.inl (Or.inr ⟨hkpt, (Option.some_inj.mp h2).symm⟩)
          · exact Or.inr ⟨pt', h1, h2⟩
    | none =>
      simp only [procPts, h, if_true]
      have hk' : ∀ q ∈ rest, isKey mp q := fun q hq => hk q (List.mem_cons_of_mem _ hq)
      obtain ⟨ihe, ihs, ihm, iha⟩ :=
        ih st mp (if sup then ws else ws ++ [index_warning c.cname ci pt]) hk'
      refine ⟨ihe, ?_, ?_, ?_⟩
      · intro d
        rw [ihs d]
        simp only [List.mem_cons]
        constructor
        · rintro (h1 | ⟨pt', h1, h2⟩)
          · exact Or.inl h1
          · exact Or.inr ⟨pt', Or.inr h1, h2⟩
        · rintro (h1 | ⟨pt', h1 | h1, h2⟩)
          · exact Or.inl h1
          · subst h1
            rw [h] at h2
            cases h2
          · exact Or.inr ⟨pt', h1, h2⟩
      · intro q d
        rw [ihm q d]
        simp only [List.mem_cons]
        constructor
        · rintro (h1 | ⟨h1, h2⟩)
          · exact Or.inl h1
          · exact Or.inr ⟨Or.inr h1, h2⟩
        · rintro (h1 | ⟨h1 | h1, h2⟩)
          · exact Or.inl h1
          · subst h1
            rw [h] at h2
            cases h2
          · exact Or.inr ⟨h1, h2⟩
      · intro d
        rw [iha d]
        simp only [List.mem_cons]
        constructor
        · rintro (h1 | ⟨pt', h1, h2⟩)
          · exact Or.inl h1
          · exact Or.inr ⟨pt', Or.inr h1, h2⟩
        · rintro (h1 | ⟨pt', h1 | h1, h2⟩)
          · exact Or.inl h1
          · subst h1
            rw [h] at h2
            cases h2
          · exact Or.inr ⟨pt', h1, h2⟩

theorem isKey_procPts (c : Component) (ci : Nat) (pts : List Nat) (a sup : Bool)
    (st : Finset Nat) (mp : List (Nat × List Nat)) (ws : List String) (q : Nat) :
    isKey (procPts c ci pts a sup st mp ws).deact q ↔ isKey mp q := by
  unfold isKey
  rw [keys_procPts]

theorem isKey_procCIs (c : Component) (cis pts : List Nat) (a sup : Bool)
    (st : Finset Nat) (mp : List (Nat × List Nat)) (ws : List String) (q : Nat) :
    isKey (procCIs c cis pts a sup st mp ws).deact q ↔ isKey mp q := by
  unfold isKey
  rw [keys_procCIs]

theorem procCIs_char (c : Component) (cis : List Nat) (pts : List Nat) (sup : Bool) :
    ∀ (st : Finset Nat) (mp : List (Nat × List Nat)) (ws : List String),
      (∀ pt ∈ pts, isKey mp pt) →
      ((procCIs c cis pts true sup st mp ws).err = none ∧
       (∀ d, d ∈ (procCIs c cis pts true sup st mp ws).state ↔
          d ∈ st ∨ ∃ ci ∈ cis, ∃ pt ∈ pts, tblGet c.lookupTbl ci pt = some d) ∧
       (∀ q d, d ∈ mpGet (procCIs c cis pts true sup st mp ws).deact q ↔
          d ∈ mpGet mp q ∨ (q ∈ pts ∧ ∃ ci ∈ cis, tblGet c.lookupTbl ci q = some d)) ∧
       (∀ d, d ∈ allIds (procCIs c cis pts true sup st mp ws).deact ↔
          d ∈ allIds mp ∨ ∃ ci ∈ cis, ∃ pt ∈ pts, tblGet c.lookupTbl ci pt = some d)) := by
  induction cis with
  | nil =>
    intro st mp ws _
    simp [procCIs]
  | cons ci cis ih =>
    intro st mp ws hk
    obtain ⟨pe, ps, pm, pa⟩ := procPts_char c ci pts sup st mp ws hk
    simp only [procCIs, pe]
    have hk' : ∀ pt ∈ pts, isKey (procPts c ci pts true sup st mp ws).deact pt := by
      intro pt hpt
      rw [isKey_procPts]
      exact hk pt hpt
    obtain ⟨ihe, ihs, ihm, iha⟩ :=
      ih (procPts c ci pts true sup st mp ws).state
        (procPts c ci pts true sup st mp ws).deact
        (procPts c ci pts true sup st mp ws).warns hk'
    refine ⟨ihe, ?_, ?_, ?_⟩
    · intro d
      rw [ihs d, ps d, List.exists_mem_cons_iff, or_assoc]
    · intro q d
      rw [ihm q d, pm q d, List.exists_mem_cons_iff, or_assoc, and_or_left]
    · intro d
      rw [iha d, pa d, List.exists_mem_cons_iff, or_assoc]

theorem exists_mem_swap {α β : Type} (l1 : List α) (l2 : List β) (P : α → β → Prop) :
    (∃ x ∈ l1, ∃ y ∈ l2, P x y) ↔ ∃ y ∈ l2, ∃ x ∈ l1, P x y := by
  constructor
  · rintro ⟨x, hx, y, hy, h⟩
    exact ⟨y, hy, x, hx, h⟩
  · rintro ⟨y, hy, x, hx, h⟩
    exact ⟨x, hx, y, hy, h⟩

theorem contribAt_cons (c : Component) (rest : List Component) (pt d : Nat) :
    contribAt (c :: rest) pt d ↔
      (elig c ∧ ∃ ci ∈ c.setExcept, tblGet c.lookupTbl ci pt = some d) ∨
        contribAt rest pt d := by
  unfold contribAt
  rw [List.exists_mem_cons_iff]

theorem contrib_cons (c : Component) (rest : List Component) (pts : List Nat) (d : Nat) :
    contrib (c :: rest) pts d ↔
      (elig c ∧ ∃ pt ∈ pts, ∃ ci ∈ c.setExcept, tblGet c.lookupTbl ci pt = some d) ∨
        contrib rest pts d := by
  unfold contrib
  constructor
  · rintro ⟨pt, hpt, hca⟩
    rw [contribAt_cons] at hca
    rcases hca with ⟨he, ci, hci, hf⟩ | hb
    · exact Or.inl ⟨he, pt, hpt, ci, hci, hf⟩
    · exact Or.inr ⟨pt, hpt, hb⟩
  · rintro (⟨he, pt, hpt, ci, hci, hf⟩ | ⟨pt, hpt, hb⟩)
    · exact ⟨pt, hpt, (contribAt_cons c rest pt d).mpr (Or.inl ⟨he, ci, hci, hf⟩)⟩
    · exact ⟨pt, hpt, (contribAt_cons c rest pt d).mpr (Or.inr hb)⟩

theorem procComps_char (pts : List Nat) (sup : Bool) :
    ∀ (comps : List Component) (visited : List Nat) (st : Finset Nat)
      (mp : List (Nat × List Nat)) (ws : List String),
      (∀ c1 ∈ comps, ∀ c2 ∈ comps, c1.cid = c2.cid → c1 = c2) →
      (∀ c ∈ comps, c.cid ∈ visited → elig c →
        ∀ ci ∈ c.setExcept, ∀ pt ∈ pts, ∀ d, tblGet c.lookupTbl ci pt = some d →
          d ∈ st ∧ d ∈ mpGet mp pt ∧ d ∈ allIds mp) →
      (∀ pt ∈ pts, isKey mp pt) →
      ((procComps comps visited pts true sup st mp ws).err = none ∧
       (∀ d, d ∈ (procComps comps visited pts true sup st mp ws).state ↔
          d ∈ st ∨ contrib comps pts d) ∧
       (∀ q d, d ∈ mpGet (procComps comps visited pts true sup st mp ws).deact q ↔
          d ∈ mpGet mp q ∨ (q ∈ pts ∧ contribAt comps q d)) ∧
       (∀ d, d ∈ allIds (procComps comps visited pts true sup st mp ws).deact ↔
          d ∈ allIds mp ∨ contrib comps pts d)) := by
  intro comps
  induction comps with
  | nil =>
    intro visited st mp ws _ _ _
    simp [procComps, contrib, contribAt]
  | cons c rest ih =>
    intro visited st mp ws hinj hdup hk
    have hinj' : ∀ c1 ∈ rest, ∀ c2 ∈ rest, c1.cid = c2.cid → c1 = c2 :=
      fun c1 h1 c2 h2 =>
        hinj c1 (List.mem_cons_of_mem _ h1) c2 (List.mem_cons_of_mem _ h2)
    cases hac : c.active with
    | false =>
      simp only [procComps, hac, Bool.false_eq_true, if_false]
      have hdup' : ∀ c' ∈ rest, c'.cid ∈ visited → elig c' →
          ∀ ci ∈ c'.setExcept, ∀ pt ∈ pts, ∀ d, tblGet c'.lookupTbl ci pt = some d →
            d ∈ st ∧ d ∈ mpGet mp pt ∧ d ∈ allIds mp :=
        fun c' h1 => hdup c' (List.mem_cons_of_mem _ h1)
      obtain ⟨ihe, ihs, ihm, iha⟩ := ih visited st mp ws hinj' hdup' hk
      have hnele : ¬ elig c := by
        rintro ⟨h1, -⟩
        rw [hac] at h1
        cases h1
      refine ⟨ihe, ?_, ?_, ?_⟩
      · intro d
        rw [ihs d, contrib_cons]
        tauto
      · intro q d
        rw [ihm q d, contribAt_cons]
        tauto
      · intro d
        rw [iha d, contrib_cons]
        tauto
    | true =>
      by_cases hv : c.cid ∈ visited
      · simp only [procComps, hac, if_true, if_pos hv]
        have hdup' : ∀ c' ∈ rest, c'.cid ∈ visited → elig c' →
            ∀ ci ∈ c'.setExcept, ∀ pt ∈ pts, ∀ d, tblGet c'.lookupTbl ci pt = some d →
              d ∈ st ∧ d ∈ mpGet mp pt ∧ d ∈ allIds mp :=
          fun c' h1 => hdup c' (List.mem_cons_of_mem _ h1)
        obtain ⟨ihe, ihs, ihm, iha⟩ := ih visited st mp ws hinj' hdup' hk
        have habs : ∀ d, (elig c ∧ ∃ pt ∈ pts, ∃ ci ∈ c.setExcept,
            tblGet c.lookupTbl ci pt = some d) →
            d ∈ st ∧ d ∈ allIds mp := by
          rintro d ⟨he, pt, hpt, ci, hci, hf⟩
          obtain ⟨h1, -, h3⟩ :=
            hdup c (List.mem_cons_self _ _) hv he ci hci pt hpt d hf
          exact ⟨h1, h3⟩
        have habsm : ∀ q d, q ∈ pts →
            (elig c ∧ ∃ ci ∈ c.setExcept, tblGet c.lookupTbl ci q = some d) →
            d ∈ mpGet mp q := by
          rintro q d hq ⟨he, ci, hci, hf⟩
          obtain ⟨-, h2, -⟩ :=
            hdup c (List.mem_cons_self _ _) hv he ci hci q hq d hf
          exact h2
        refine ⟨ihe, ?_, ?_, ?_⟩
        · intro d
          rw [ihs d, contrib_cons]
          constructor
          · rintro (h1 | h1)
            · exact Or.inl h1
            · exact Or.inr (Or.inr h1)
          · rintro (h1 | h1 | h1)
            · exact Or.inl h1
            · exact Or.inl (habs d h1).1
            · exact Or.inr h1
        · intro q d
          rw [ihm q d, contribAt_cons]
          constructor
          · rintro (h1 | ⟨hq, h2⟩)
            · exact Or.inl h1
            · exact Or.inr ⟨hq, Or.inr h2⟩
          · rintro (h1 | ⟨hq, h2 | h2⟩)
            · exact Or.inl h1
            · exact Or.inl (habsm q d hq h2)
            · exact Or.inr ⟨hq, h2⟩
        · intro d
          rw [iha d, contrib_cons]
          constructor
          · rintro (h1 | h1)
            · exact Or.inl h1
            · exact Or.inr (Or.inr h1)
          · rintro (h1 | h1 | h1)
            · exact Or.inl h1
            · exact Or.inl (habs d h1).2
            · exact Or.inr h1
      · cases hex : c.isExplicit && !c.isImplicit with
        | true =>
          have helig : elig c := by
            rw [Bool.and_eq_true, Bool.not_eq_true'] at hex
            exact ⟨hac, hex.1, hex.2⟩
          obtain ⟨pe, ps, pm, pa⟩ := procCIs_char c c.setExcept pts sup st mp ws hk
          simp only [procComps, hac, if_true, if_neg hv, hex, pe]
          have hk' : ∀ pt ∈ pts,
              isKey (procCIs c c.setExcept pts true sup st mp ws).deact pt := by
            intro pt hpt
            rw [isKey_procCIs]
            exact hk pt hpt
          have hdup' : ∀ c' ∈ rest, c'.cid ∈ c.cid :: visited → elig c' →
              ∀ ci ∈ c'.setExcept, ∀ pt ∈ pts, ∀ d, tblGet c'.lookupTbl ci pt = some d →
                d ∈ (procCIs c c.setExcept pts true sup st mp ws).state ∧
                d ∈ mpGet (procCIs c c.setExcept pts true sup st mp ws).deact pt ∧
                d ∈ allIds (procCIs c c.setExcept pts true sup st mp ws).deact := by
            intro c' hc' hcid helig' ci hci pt hpt d hf
            rcases List.mem_cons.mp hcid with heq | hmem
            · have hcc : c' = c :=
                hinj c' (List.mem_cons_of_mem _ hc') c (List.mem_cons_self _ _) heq
              subst hcc
              exact ⟨(ps d).mpr (Or.inr ⟨ci, hci, pt, hpt, hf⟩),
                (pm pt d).mpr (Or.inr ⟨hpt, ci, hci, hf⟩),
                (pa d).mpr (Or.inr ⟨ci, hci, pt, hpt, hf⟩)⟩
            · obtain ⟨h1, h2, h3⟩ :=
                hdup c' (List.mem_cons_of_mem _ hc') hmem helig' ci hci pt hpt d hf
              exact ⟨(ps d).mpr (Or.inl h1), (pm pt d).mpr (Or.inl h2),
                (pa d).mpr (Or.inl h3)⟩
          obtain ⟨ihe, ihs, ihm, iha⟩ :=
            ih (c.cid :: visited) (procCIs c c.setExcept pts true sup st mp ws).state
              (procCIs c c.setExcept pts true sup st mp ws).deact
              (procCIs c c.setExcept pts true sup st mp ws).warns hinj' hdup' hk'
          refine ⟨ihe, ?_, ?_, ?_⟩
          · intro d
            rw [ihs d, ps d, contrib_cons,
              exists_mem_swap c.setExcept pts
                (fun ci pt => tblGet c.lookupTbl ci pt = some d)]
            constructor
            · rintro ((h1 | h1) | h1)
              · exact Or.inl h1
              · exact Or.inr (Or.inl ⟨helig, h1⟩)
              · exact Or.inr (Or.inr h1)
            · rintro (h1 | ⟨-, h1⟩ | h1)
              · exact Or.inl (Or.inl h1)
              · exact Or.inl (Or.inr h1)
              · exact Or.inr h1
          · intro q d
            rw [ihm q d, pm q d, contribAt_cons]
            constructor
            · rintro ((h1 | ⟨hp, h1⟩) | ⟨hp, h1⟩)
              · exact Or.inl h1
              · exact Or.inr ⟨hp, Or.inl ⟨helig, h1⟩⟩
              · exact Or.inr ⟨hp, Or.inr h1⟩
            · rintro (h1 | ⟨hp, ⟨-, h1⟩ | h1⟩)
              · exact Or.inl (Or.inl h1)
              · exact Or.inl (Or.inr ⟨hp, h1⟩)
              · exact Or.inr ⟨hp, h1⟩
          · intro d
            rw [iha d, pa d, contrib_cons,
              exists_mem_swap c.setExcept pts
                (fun ci pt => tblGet c.lookupTbl ci pt = some d)]
            constructor
            · rintro ((h1 | h1) | h1)
              · exact Or.inl h1
              · exact Or.inr (Or.inl ⟨helig, h1⟩)
              · exact Or.inr (Or.inr h1)
            · rintro (h1 | ⟨-, h1⟩ | h1)
              · exact Or.inl (Or.inl h1)
              · exact Or.inl (Or.inr h1)
              · exact Or.inr h1
        | false =>
          simp only [procComps, hac, if_true, if_neg hv, hex, Bool.false_eq_true,
            if_false]
          have hnele : ¬ elig c := by
            rintro ⟨-, h2, h3⟩
            rw [h2, h3] at hex
            cases hex
          have hdup' : ∀ c' ∈ rest, c'.cid ∈ c.cid :: visited → elig c' →
              ∀ ci ∈ c'.setExcept, ∀ pt ∈ pts, ∀ d, tblGet c'.lookupTbl ci pt = some d →
                d ∈ st ∧ d ∈ mpGet mp pt ∧ d ∈ allIds mp := by
            intro c' hc' hcid helig' ci hci pt hpt d hf
            rcases List.mem_cons.mp hcid with heq | hmem
            · have hcc : c' = c :=
                hinj c' (List.mem_cons_of_mem _ hc') c (List.mem_cons_self _ _) heq
              rw [hcc] at helig'
              exact absurd helig' hnele
            · exact hdup c' (List.mem_cons_of_mem _ hc') hmem helig' ci hci pt hpt d hf
          obtain ⟨ihe, ihs, ihm, iha⟩ := ih (c.cid :: visited) st mp ws hinj' hdup' hk
          refine ⟨ihe, ?_, ?_, ?_⟩
          · intro d
            rw [ihs d, contrib_cons]
            tauto
          · intro q d
            rw [ihm q d, contribAt_cons]
            tauto
          · intro d
            rw [iha d, contrib_cons]
            tauto

/-- Full characterization of a successful (`allow_skip=True`) run of
`deactivate_model_at`: no error, the final inactive set is the incoming one
plus exactly the data of eligible components at requested points, and the
returned dictionary records at each requested point exactly the data of
eligible components there. -/
theorem deactivate_model_at_char (m : Model) (cset : CSet) (ptsArg : PtsArg)
    (sup : Bool) (st : Finset Nat)
    (hinj : IdFaithful m)
    (hval : ∀ pt ∈ ptsArg.toList, pt ∈ cset.pts) :
    ((deactivate_model_at m cset ptsArg true sup st).err = none ∧
     (∀ d, d ∈ (deactivate_model_at m cset ptsArg true sup st).state ↔
        d ∈ st ∨ contrib m.comps ptsArg.toList d) ∧
     (∀ q d, d ∈ mpGet (deactivate_model_at m cset ptsArg true sup st).deact q ↔
        q ∈ ptsArg.toList ∧ contribAt m.comps q d) ∧
     (∀ d, d ∈ allIds (deactivate_model_at m cset ptsArg true sup st).deact ↔
        contrib m.comps ptsArg.toList d)) := by
  have hf : firstInvalid cset.pts ptsArg.toList = none :=
    (firstInvalid_eq_none cset.pts ptsArg.toList).mpr hval
  unfold deactivate_model_at
  simp only [hf]
  have hk : ∀ pt ∈ ptsArg.toList, isKey (initMap ptsArg.toList) pt := by
    intro pt hpt
    rw [isKey_initMap]
    exact hpt
  obtain ⟨he, hs, hm, ha⟩ :=
    procComps_char ptsArg.toList sup m.comps [] st (initMap ptsArg.toList) [] hinj
      (by intro c _ hcid; cases hcid) hk
  refine ⟨he, hs, ?_, ?_⟩
  · intro q d
    rw [hm q d, mpGet_initMap]
    simp
  · intro d
    rw [ha d, allIds_initMap]
    simp

/-! ### Lemmas for `allow_skip = False` runs -/

theorem procPts_state_mono (c : Component) (ci : Nat) (pts : List Nat) (a sup : Bool)
    (st : Finset Nat) (mp : List (Nat × List Nat)) (ws : List String) :
    st ⊆ (procPts c ci pts a sup st mp ws).state := by
  rw [procPts_shift]
  exact Finset.subset_union_left

theorem procCIs_state_mono (c : Component) (cis pts : List Nat) (a sup : Bool)
    (st : Finset Nat) (mp : List (Nat × List Nat)) (ws : List String) :
    st ⊆ (procCIs c cis pts a sup st mp ws).state := by
  rw [procCIs_shift]
  exact Finset.subset_union_left

theorem procComps_state_mono (comps : List Component) (visited pts : List Nat)
    (a sup : Bool) (st : Finset Nat) (mp : List (Nat × List Nat)) (ws : List String) :
    st ⊆ (procComps comps visited pts a sup st mp ws).state := by
  rw [procComps_shift]
  exact Finset.subset_union_left

theorem procPts_err_keyError (c : Component) (ci : Nat) (pts : List Nat) (a sup : Bool) :
    ∀ (st : Finset Nat) (mp : List (Nat × List Nat)) (ws : List String) (e : DErr),
      (procPts c ci pts a sup st mp ws).err = some e →
      ∃ nm ci' pt', e = DErr.keyError nm ci' pt' := by
  induction pts with
  | nil => intro st mp ws e h; simp [procPts] at h
  | cons pt rest ih =>
    intro st mp ws e h
    cases hf : tblGet c.lookupTbl ci pt with
    | some d =>
      rw [procPts, hf] at h
      exact ih _ _ _ e h
    | none =>
      rw [procPts, hf] at h
      cases a with
      | true =>
        simp only [if_true] at h
        exact ih _ _ _ e h
      | false =>
        simp only [Bool.false_eq_true, if_false] at h
        exact ⟨c.cname, ci, pt, (Option.some_inj.mp h).symm⟩

theorem procCIs_err_keyError (c : Component) (cis : List Nat) (pts : List Nat)
    (a sup : Bool) :
    ∀ (st : Finset Nat) (mp : List (Nat × List Nat)) (ws : List String) (e : DErr),
      (procCIs c cis pts a sup st mp ws).err = some e →
      ∃ nm ci' pt', e = DErr.keyError nm ci' pt' := by
  induction cis with
  | nil => intro st mp ws e h; simp [procCIs] at h
  | cons ci cis ih =>
    intro st mp ws e h
    rw [procCIs] at h
    cases hr : (procPts c ci pts a sup st mp ws).err with
    | some e' =>
      simp only [hr] at h
      exact procPts_err_keyError c ci pts a sup st mp ws e (hr.symm ▸ h)
    | none =>
      simp only [hr] at h
      exact ih _ _ _ e h

theorem procComps_err_keyError (comps : List Component) (pts : List Nat)
    (a sup : Bool) :
    ∀ (visited : List Nat) (st : Finset Nat) (mp : List (Nat × List Nat))
      (ws : List String) (e : DErr),
      (procComps comps visited pts a sup st mp ws).err = some e →
      ∃ nm ci' pt', e = DErr.keyError nm ci' pt' := by
  induction comps with
  | nil => intro visited st mp ws e h; simp [procComps] at h
  | cons c rest ih =>
    intro visited st mp ws e h
    cases hac : c.active with
    | false =>
      rw [procComps] at h
      simp only [hac, Bool.false_eq_true, if_false] at h
      exact ih _ _ _ _ e h
    | true =>
      by_cases hv : c.cid ∈ visited
      · rw [procComps] at h
        simp only [hac, if_true, if_pos hv] at h
        exact ih _ _ _ _ e h
      · cases hex : c.isExplicit && !c.isImplicit with
        | false =>
          rw [procComps] at h
          simp only [hac, if_true, if_neg hv, hex, Bool.false_eq_true, if_false] at h
          exact ih _ _ _ _ e h
        | true =>
          rw [procComps] at h
          simp only [hac, if_true, if_neg hv, hex] at h
          cases hr : (procCIs c c.setExcept pts a sup st mp ws).err with
          | some e' =>
            simp only [hr] at h
            exact procCIs_err_keyError c c.setExcept pts a sup st mp ws e (hr.symm ▸ h)
          | none =>
            simp only [hr] at h
            exact ih _ _ _ _ e h

theorem procPts_total_of_ok (c : Component) (ci : Nat) (pts : List Nat) (sup : Bool) :
    ∀ (st : Finset Nat) (mp : List (Nat × List Nat)) (ws : List String),
      (procPts c ci pts false sup st mp ws).err = none →
      ∀ pt ∈ pts, tblGet c.lookupTbl ci pt ≠ none := by
  induction pts with
  | nil => intro st mp ws _ pt hpt; cases hpt
  | cons pt rest ih =>
    intro st mp ws h q hq
    cases hf : tblGet c.lookupTbl ci pt with
    | some d =>
      rw [procPts, hf] at h
      rcases List.mem_cons.mp hq with rfl | hq'
      · rw [hf]; simp
      · exact ih _ _ _ h q hq'
    | none =>
      rw [procPts, hf] at h
      simp at h

theorem procCIs_total_of_ok (c : Component) (cis : List Nat) (pts : List Nat)
    (sup : Bool) :
    ∀ (st : Finset Nat) (mp : List (Nat × List Nat)) (ws : List String),
      (procCIs c cis pts false sup st mp ws).err = none →
      ∀ ci ∈ cis, ∀ pt ∈ pts, tblGet c.lookupTbl ci pt ≠ none := by
  induction cis with
  | nil => intro st mp ws _ ci hci; cases hci
  | cons ci cis ih =>
    intro st mp ws h ci' hci' pt hpt
    rw [procCIs] at h
    cases hr : (procPts c ci pts false sup st mp ws).err with
    | some e => simp only [hr] at h; cases h
    | none =>
      simp only [hr] at h
      rcases List.mem_cons.mp hci' with rfl | hci''
      · exact procPts_total_of_ok c ci' pts sup st mp ws hr pt hpt
      · exact ih _ _ _ h ci' hci'' pt hpt

theorem procComps_total_of_ok (pts : List Nat) (sup : Bool) :
    ∀ (comps : List Component) (visited : List Nat) (st : Finset Nat)
      (mp : List (Nat × List Nat)) (ws : List String),
      (∀ c1 ∈ comps, ∀ c2 ∈ comps, c1.cid = c2.cid → c1 = c2) →
      (∀ c ∈ comps, c.cid ∈ visited → elig c →
        ∀ ci ∈ c.setExcept, ∀ pt ∈ pts, tblGet c.lookupTbl ci pt ≠ none) →
      (procComps comps visited pts false sup st mp ws).err = none →
      ∀ c ∈ comps, elig c → ∀ ci ∈ c.setExcept, ∀ pt ∈ pts,
        tblGet c.lookupTbl ci pt ≠ none := by
  intro comps
  induction comps with
  | nil => intro visited st mp ws _ _ _ c hc; cases hc
  | cons c rest ih =>
    intro visited st mp ws hinj hvis herr c' hc' helig ci hci pt hpt
    have hinj' : ∀ c1 ∈ rest, ∀ c2 ∈ rest, c1.cid = c2.cid → c1 = c2 :=
      fun c1 h1 c2 h2 =>
        hinj c1 (List.mem_cons_of_mem _ h1) c2 (List.mem_cons_of_mem _ h2)
    cases hac : c.active with
    | false =>
      rw [procComps] at herr
      simp only [hac, Bool.false_eq_true, if_false] at herr
      rcases List.mem_cons.mp hc' with rfl | hc''
      · rcases helig with ⟨h1, -⟩
        rw [hac] at h1
        cases h1
      · exact ih visited st mp ws hinj'
          (fun c h1 => hvis c (List.mem_cons_of_mem _ h1)) herr c' hc'' helig ci hci pt hpt
    | true =>
      by_cases hv : c.cid ∈ visited
      · rw [procComps] at herr
        simp only [hac, if_true, if_pos hv] at herr
        rcases List.mem_cons.mp hc' with rfl | hc''
        · exact hvis c' (List.mem_cons_self _ _) hv helig ci hci pt hpt
        · exact ih visited st mp ws hinj'
            (fun c h1 => hvis c (List.mem_cons_of_mem _ h1)) herr c' hc'' helig ci hci pt hpt
      · cases hex : c.isExplicit && !c.isImplicit with
        | false =>
          rw [procComps] at herr
          simp only [hac, if_true, if_neg hv, hex, Bool.false_eq_true, if_false] at herr
          have hnele : ¬ elig c := by
            rintro ⟨-, h2, h3⟩
            rw [h2, h3] at hex
            cases hex
          rcases List.mem_cons.mp hc' with rfl | hc''
          · exact absurd helig hnele
          · refine ih (c.cid :: visited) st mp ws hinj' ?_ herr c' hc'' helig ci hci pt hpt
            intro c2 h2 hcid helig2
            rcases List.mem_cons.mp hcid with heq | hmem
            · have : c2 = c :=
                hinj c2 (List.mem_cons_of_mem _ h2) c (List.mem_cons_self _ _) heq
              rw [this] at helig2
              exact absurd helig2 hnele
            · exact hvis c2 (List.mem_cons_of_mem _ h2) hmem helig2
        | true =>
          rw [procComps] at herr
          simp only [hac, if_true, if_neg hv, hex] at herr
          cases hr : (procCIs c c.setExcept pts false sup st mp ws).err with
          | some e => simp only [hr] at herr; cases herr
          | none =>
            simp only [hr] at herr
            have htc : ∀ ci ∈ c.setExcept, ∀ pt ∈ pts, tblGet c.lookupTbl ci pt ≠ none :=
              procCIs_total_of_ok c c.setExcept pts sup st mp ws hr
            rcases List.mem_cons.mp hc' with rfl | hc''
            · exact htc ci hci pt hpt
            · refine ih (c.cid :: visited)
                (procCIs c c.setExcept pts false sup st mp ws).state
                (procCIs c c.setExcept pts false sup st mp ws).deact
                (procCIs c c.setExcept pts false sup st mp ws).warns hinj' ?_ herr
                c' hc'' helig ci hci pt hpt
              intro c2 h2 hcid helig2
              rcases List.mem_cons.mp hcid with heq | hmem
              · have hc2 : c2 = c :=
                  hinj c2 (List.mem_cons_of_mem _ h2) c (List.mem_cons_self _ _) heq
                rw [hc2]
                exact htc
              · exact hvis c2 (List.mem_cons_of_mem _ h2) hmem helig2

theorem procPts_adds_of_total (c : Component) (ci : Nat) (pts : List Nat)
    (a sup : Bool) :
    ∀ (st : Finset Nat) (mp : List (Nat × List Nat)) (ws : List String),
      (∀ pt ∈ pts, tblGet c.lookupTbl ci pt ≠ none) →
      ((procPts c ci pts a sup st mp ws).err = none ∧
       ∀ pt ∈ pts, ∀ d, tblGet c.lookupTbl ci pt = some d →
         d ∈ (procPts c ci pts a sup st mp ws).state) := by
  induction pts with
  | nil => intro st mp ws _; refine ⟨rfl, ?_⟩; intro pt hpt; cases hpt
  | cons pt rest ih =>
    intro st mp ws htot
    cases hf : tblGet c.lookupTbl ci pt with
    | none => exact absurd hf (htot pt (List.mem_cons_self _ _))
    | some d0 =>
      simp only [procPts, hf]
      obtain ⟨ihe, ihd⟩ := ih (insert d0 st) (addTo mp pt d0) ws
        (fun q hq => htot q (List.mem_cons_of_mem _ hq))
      refine ⟨ihe, ?_⟩
      intro q hq d hd
      rcases List.mem_cons.mp hq with rfl | hq'
      · rw [hf] at hd
        have hdd : d = d0 := Option.some_inj.mp hd.symm
        subst hdd
        exact procPts_state_mono c ci rest a sup _ _ ws (Finset.mem_insert_self _ st)
      · exact ihd q hq' d hd

theorem procCIs_adds_of_total (c : Component) (cis : List Nat) (pts : List Nat)
    (a sup : Bool) :
    ∀ (st : Finset Nat) (mp : List (Nat × List Nat)) (ws : List String),
      (∀ ci ∈ cis, ∀ pt ∈ pts, tblGet c.lookupTbl ci pt ≠ none) →
      ((procCIs c cis pts a sup st mp ws).err = none ∧
       st ⊆ (procCIs c cis pts a sup st mp ws).state ∧
       ∀ ci ∈ cis, ∀ pt ∈ pts, ∀ d, tblGet c.lookupTbl ci pt = some d →
         d ∈ (procCIs c cis pts a sup st mp ws).state) := by
  induction cis with
  | nil =>
    intro st mp ws _
    refine ⟨rfl, Finset.Subset.refl st, ?_⟩
    intro ci hci
    cases hci
  | cons ci cis ih =>
    intro st mp ws htot
    obtain ⟨pe, pd⟩ := procPts_adds_of_total c ci pts a sup st mp ws
      (htot ci (List.mem_cons_self _ _))
    simp only [procCIs, pe]
    obtain ⟨ihe, ihmono, ihd⟩ := ih (procPts c ci pts a sup st mp ws).state
      (procPts c ci pts a sup st mp ws).deact (procPts c ci pts a sup st mp ws).warns
      (fun ci' hci' => htot ci' (List.mem_cons_of_mem _ hci'))
    refine ⟨ihe, ?_, ?_⟩
    · exact (procPts_state_mono c ci pts a sup st mp ws).trans ihmono
    · intro ci' hci' pt hpt d hd
      rcases List.mem_cons.mp hci' with rfl | hci''
      · exact ihmono (pd pt hpt d hd)
      · exact ihd ci' hci'' pt hpt d hd

theorem procComps_prefix (pts : List Nat) (a sup : Bool) (post : List Component) :
    ∀ (pre : List Component) (visited : List Nat) (st : Finset Nat)
      (mp : List (Nat × List Nat)) (ws : List String),
      (∀ c1 ∈ pre ++ post, ∀ c2 ∈ pre ++ post, c1.cid = c2.cid → c1 = c2) →
      (∀ c ∈ pre, c.cid ∈ visited → elig c →
        ∀ ci ∈ c.setExcept, ∀ pt ∈ pts, ∀ d, tblGet c.lookupTbl ci pt = some d →
          d ∈ st) →
      (∀ c ∈ pre, elig c → ∀ ci ∈ c.setExcept, ∀ pt ∈ pts,
        tblGet c.lookupTbl ci pt ≠ none) →
      ∀ c ∈ pre, elig c → ∀ ci ∈ c.setExcept, ∀ pt ∈ pts, ∀ d,
        tblGet c.lookupTbl ci pt = some d →
        d ∈ (procComps (pre ++ post) visited pts a sup st mp ws).state := by
  intro pre
  induction pre with
  | nil => intro visited st mp ws _ _ _ c hc; cases hc
  | cons c rest ih =>
    intro visited st mp ws hinj hdup htot c' hc' helig ci hci pt hpt d hd
    have hinj' : ∀ c1 ∈ rest ++ post, ∀ c2 ∈ rest ++ post, c1.cid = c2.cid → c1 = c2 := by
      intro c1 h1 c2 h2 heq
      refine hinj c1 ?_ c2 ?_ heq
      · rw [List.cons_append]
        exact List.mem_cons_of_mem _ h1
      · rw [List.cons_append]
        exact List.mem_cons_of_mem _ h2
    rw [List.cons_append]
    cases hac : c.active with
    | false =>
      rw [procComps]
      simp only [hac, Bool.false_eq_true, if_false]
      rcases List.mem_cons.mp hc' with rfl | hc''
      · rcases helig with ⟨h1, -⟩
        rw [hac] at h1
        cases h1
      · exact ih visited st mp ws hinj'
          (fun c2 h2 => hdup c2 (List.mem_cons_of_mem _ h2))
          (fun c2 h2 => htot c2 (List.mem_cons_of_mem _ h2)) c' hc'' helig ci hci pt hpt d hd
    | true =>
      by_cases hv : c.cid ∈ visited
      · rw [procComps]
        simp only [hac, if_true, if_pos hv]
        rcases List.mem_cons.mp hc' with rfl | hc''
        · exact procComps_state_mono _ _ _ _ _ _ _ _
            (hdup c' (List.mem_cons_self _ _) hv helig ci hci pt hpt d hd)
        · exact ih visited st mp ws hinj'
            (fun c2 h2 => hdup c2 (List.mem_cons_of_mem _ h2))
            (fun c2 h2 => htot c2 (List.mem_cons_of_mem _ h2)) c' hc'' helig ci hci pt hpt d hd
      · cases hex : c.isExplicit && !c.isImplicit with
        | false =>
          rw [procComps]
          simp only [hac, if_true, if_neg hv, hex, Bool.false_eq_true, if_false]
          have hnele : ¬ elig c := by
            rintro ⟨-, h2, h3⟩
            rw [h2, h3] at hex
            cases hex
          rcases List.mem_cons.mp hc' with rfl | hc''
          · exact absurd helig hnele
          · refine ih (c.cid :: visited) st mp ws hinj' ?_
              (fun c2 h2 => htot c2 (List.mem_cons_of_mem _ h2)) c' hc'' helig ci hci pt hpt d hd
            intro c2 h2 hcid helig2
            rcases List.mem_cons.mp hcid with heq | hmem
            · have hcc : c2 = c := by
                refine hinj c2 ?_ c ?_ heq
                · rw [List.cons_append]
                  exact List.mem_cons_of_mem _ (List.mem_append_left _ h2)
                · rw [List.cons_append]
                  exact List.mem_cons_self _ _
              rw [hcc] at helig2
              exact absurd helig2 hnele
            · exact hdup c2 (List.mem_cons_of_mem _ h2) hmem helig2
        | true =>
          rw [procComps]
          simp only [hac, if_true, if_neg hv, hex]
          have hcelig : elig c := by
            rw [Bool.and_eq_true, Bool.not_eq_true'] at hex
            exact ⟨hac, hex.1, hex.2⟩
          have htc : ∀ ci' ∈ c.setExcept, ∀ pt' ∈ pts,
              tblGet c.lookupTbl ci' pt' ≠ none :=
            htot c (List.mem_cons_self _ _) hcelig
          obtain ⟨pe, pmono, padds⟩ :=
            procCIs_adds_of_total c c.setExcept pts a sup st mp ws htc
          simp only [pe]
          rcases List.mem_cons.mp hc' with rfl | hc''
          · exact procComps_state_mono _ _ _ _ _ _ _ _ (padds ci hci pt hpt d hd)
          · refine ih (c.cid :: visited)
              (procCIs c c.setExcept pts a sup st mp ws).state
              (procCIs c c.setExcept pts a sup st mp ws).deact
              (procCIs c c.setExcept pts a sup st mp ws).warns hinj' ?_
              (fun c2 h2 => htot c2 (List.mem_cons_of_mem _ h2)) c' hc'' helig ci hci pt hpt d hd
            intro c2 h2 hcid helig2 ci2 hci2 pt2 hpt2 d2 hd2
            rcases List.mem_cons.mp hcid with heq | hmem
            · have hcc : c2 = c := by
                refine hinj c2 ?_ c ?_ heq
                · rw [List.cons_append]
                  exact List.mem_cons_of_mem _ (List.mem_append_left _ h2)
                · rw [List.cons_append]
                  exact List.mem_cons_self _ _
              subst hcc
              exact padds ci2 hci2 pt2 hpt2 d2 hd2
            · exact pmono
                (hdup c2 (List.mem_cons_of_mem _ h2) hmem helig2 ci2 hci2 pt2 hpt2 d2 hd2)

/-! ### Reactivation -/

theorem mem_eraseList (l : List Nat) :
    ∀ (s : Finset Nat) (x : Nat), x ∈ eraseList l s ↔ x ∈ s ∧ x ∉ l := by
  induction l with
  | nil => intro s x; simp [eraseList]
  | cons d ds ih =>
    intro s x
    rw [eraseList, ih]
    simp only [Finset.mem_erase, List.mem_cons]
    tauto

theorem mem_reactivateAll (ts : List Nat) :
    ∀ (mp : List (Nat × List Nat)) (s : Finset Nat) (x : Nat),
      x ∈ reactivateAll ts mp s ↔ x ∈ s ∧ ∀ t ∈ ts, x ∉ mpGet mp t := by
  induction ts with
  | nil => intro mp s x; simp [reactivateAll]
  | cons t ts ih =>
    intro mp s x
    rw [reactivateAll, ih, mem_eraseList, List.forall_mem_cons, and_assoc]

/-! ### Lemmas on the consistency checker: first loop (constraints) -/

theorem mem_csAdd (acc : List Nat) (d x : Nat) : x ∈ csAdd acc d ↔ x ∈ acc ∨ x = d := by
  by_cases h : d ∈ acc
  · simp only [csAdd, if_pos h]
    constructor
    · exact Or.inl
    · rintro (h1 | rfl)
      · exact h1
      · exact h
  · simp [csAdd, h]

theorem phase1Cis_mono (m : Model) (con : Component) (tol : Int) (t0v : Nat)
    (a sup : Bool) :
    ∀ (cis : List Nat) (acc : List Nat) (ws : List String) (x : Nat), x ∈ acc →
      x ∈ (phase1Cis m con tol t0v a sup cis acc ws).acc := by
  intro cis
  induction cis with
  | nil => intro acc ws x hx; exact hx
  | cons ci cis ih =>
    intro acc ws x hx
    cases hf : tblGet con.lookupTbl ci t0v with
    | none =>
      rw [phase1Cis, hf]
      cases a with
      | true => simp only [if_true]; exact ih _ _ x hx
      | false => simp only [Bool.false_eq_true, if_false]; exact hx
    | some d =>
      rw [phase1Cis, hf]
      simp only
      refine ih _ _ x ?_
      by_cases hv : violatedB m tol d <;> simp [hv, mem_csAdd, hx]

theorem phase1Cis_sound (m : Model) (con : Component) (tol : Int) (t0v : Nat)
    (a sup : Bool) :
    ∀ (cis : List Nat) (acc : List Nat) (ws : List String) (x : Nat),
      x ∈ (phase1Cis m con tol t0v a sup cis acc ws).acc →
      x ∈ acc ∨ violatedB m tol x = true := by
  intro cis
  induction cis with
  | nil => intro acc ws x hx; exact Or.inl hx
  | cons ci cis ih =>
    intro acc ws x hx
    cases hf : tblGet con.lookupTbl ci t0v with
    | none =>
      rw [phase1Cis, hf] at hx
      cases a with
      | true => simp only [if_true] at hx; exact ih _ _ x hx
      | false => simp only [Bool.false_eq_true, if_false] at hx; exact Or.inl hx
    | some d =>
      rw [phase1Cis, hf] at hx
      simp only at hx
      rcases ih _ _ x hx with h1 | h1
      · by_cases hv : violatedB m tol d
        · rw [if_pos hv, mem_csAdd] at h1
          rcases h1 with h2 | rfl
          · exact Or.inl h2
          · exact Or.inr hv
        · rw [if_neg hv] at h1
          exact Or.inl h1
      · exact Or.inr h1

theorem phase1Cis_complete (m : Model) (con : Component) (tol : Int) (t0v : Nat)
    (a sup : Bool) :
    ∀ (cis : List Nat) (acc : List Nat) (ws : List String),
      (phase1Cis m con tol t0v a sup cis acc ws).err = none →
      ∀ ci ∈ cis, ∀ d, tblGet con.lookupTbl ci t0v = some d →
        violatedB m tol d = true →
        d ∈ (phase1Cis m con tol t0v a sup cis acc ws).acc := by
  intro cis
  induction cis with
  | nil => intro acc ws _ ci hci; cases hci
  | cons ci cis ih =>
    intro acc ws herr ci' hci' d hd hv
    cases hf : tblGet con.lookupTbl ci t0v with
    | none =>
      rw [phase1Cis, hf] at herr ⊢
      cases a with
      | true =>
        simp only [if_true] at herr ⊢
        rcases List.mem_cons.mp hci' with rfl | hci''
        · rw [hf] at hd
          cases hd
        · exact ih _ _ herr ci' hci'' d hd hv
      | false => simp only [Bool.false_eq_true, if_false] at herr; cases herr
    | some d0 =>
      rw [phase1Cis, hf] at herr ⊢
      simp only at herr ⊢
      rcases List.mem_cons.mp hci' with rfl | hci''
      · rw [hf] at hd
        have hdd : d0 = d := Option.some_inj.mp hd
        subst hdd
        refine phase1Cis_mono m con tol t0v a sup cis _ _ d0 ?_
        rw [if_pos hv, mem_csAdd]
        exact Or.inr rfl
      · exact ih _ _ herr ci' hci'' d hd hv

theorem phase1Cis_ok (m : Model) (con : Component) (tol : Int) (t0v : Nat)
    (sup : Bool) :
    ∀ (cis : List Nat) (acc : List Nat) (ws : List String),
      (phase1Cis m con tol t0v true sup cis acc ws).err = none := by
  intro cis
  induction cis with
  | nil => intro acc ws; rfl
  | cons ci cis ih =>
    intro acc ws
    cases hf : tblGet con.lookupTbl ci t0v with
    | none => rw [phase1Cis, hf]; simp only [if_true]; exact ih _ _
    | some d => rw [phase1Cis, hf]; exact ih _ _

theorem phase1Comps_mono (m : Model) (tol : Int) (t0v : Nat) (a sup : Bool) :
    ∀ (comps : List Component) (acc : List Nat) (ws : List String) (x : Nat),
      x ∈ acc → x ∈ (phase1Comps m tol t0v a sup comps acc ws).acc := by
  intro comps
  induction comps with
  | nil => intro acc ws x hx; exact hx
  | cons con rest ih =>
    intro acc ws x hx
    rw [phase1Comps]
    by_cases hg : con.kind = Kind.constraintKind ∧ con.active = true
    · rw [if_pos hg]
      by_cases h1 : con.isExplicit = false
      · rw [if_pos h1]; exact ih _ _ x hx
      · rw [if_neg h1]
        by_cases h2 : con.isImplicit = true
        · rw [if_pos h2]; exact ih _ _ x hx
        · rw [if_neg h2]
          cases he : (phase1Cis m con tol t0v a sup con.setExcept acc ws).err with
          | some e => simp only [he]; exact phase1Cis_mono m con tol t0v a sup _ _ _ x hx
          | none =>
            simp only [he]
            exact ih _ _ x (phase1Cis_mono m con tol t0v a sup _ _ _ x hx)
    · rw [if_neg hg]
      exact ih _ _ x hx

theorem phase1Comps_sound (m : Model) (tol : Int) (t0v : Nat) (a sup : Bool) :
    ∀ (comps : List Component) (acc : List Nat) (ws : List String) (x : Nat),
      x ∈ (phase1Comps m tol t0v a sup comps acc ws).acc →
      x ∈ acc ∨ violatedB m tol x = true := by
  intro comps
  induction comps with
  | nil => intro acc ws x hx; exact Or.inl hx
  | cons con rest ih =>
    intro acc ws x hx
    rw [phase1Comps] at hx
    by_cases hg : con.kind = Kind.constraintKind ∧ con.active = true
    · rw [if_pos hg] at hx
      by_cases h1 : con.isExplicit = false
      · rw [if_pos h1] at hx; exact ih _ _ x hx
      · rw [if_neg h1] at hx
        by_cases h2 : con.isImplicit = true
        · rw [if_pos h2] at hx; exact ih _ _ x hx
        · rw [if_neg h2] at hx
          cases he : (phase1Cis m con tol t0v a sup con.setExcept acc ws).err with
          | some e =>
            simp only [he] at hx
            exact phase1Cis_sound m con tol t0v a sup _ _ _ x hx
          | none =>
            simp only [he] at hx
            rcases ih _ _ x hx with h3 | h3
            · exact phase1Cis_sound m con tol t0v a sup _ _ _ x h3
            · exact Or.inr h3
    · rw [if_neg hg] at hx
      exact ih _ _ x hx

theorem phase1Comps_ok (m : Model) (tol : Int) (t0v : Nat) (sup : Bool) :
    ∀ (comps : List Component) (acc : List Nat) (ws : List String),
      (phase1Comps m tol t0v true sup comps acc ws).err = none := by
  intro comps
  induction comps with
  | nil => intro acc ws; rfl
  | cons con rest ih =>
    intro acc ws
    rw [phase1Comps]
    by_cases hg : con.kind = Kind.constraintKind ∧ con.active = true
    · rw [if_pos hg]
      by_cases h1 : con.isExplicit = false
      · rw [if_pos h1]; exact ih _ _
      · rw [if_neg h1]
        by_cases h2 : con.isImplicit = true
        · rw [if_pos h2]; exact ih _ _
        · rw [if_neg h2]
          have he := phase1Cis_ok m con tol t0v sup con.setExcept acc ws
          simp only [he]
          exact ih _ _
    · rw [if_neg hg]
      exact ih _ _

theorem phase1Comps_complete (m : Model) (tol : Int) (t0v : Nat) (a sup : Bool) :
    ∀ (comps : List Component) (acc : List Nat) (ws : List String),
      (phase1Comps m tol t0v a sup comps acc ws).err = none →
      ∀ con ∈ comps, con.kind = Kind.constraintKind → elig con →
        ∀ ci ∈ con.setExcept, ∀ d, tblGet con.lookupTbl ci t0v = some d →
          violatedB m tol d = true →
          d ∈ (phase1Comps m tol t0v a sup comps acc ws).acc := by
  intro comps
  induction comps with
  | nil => intro acc ws _ con hcon; cases hcon
  | cons con rest ih =>
    intro acc ws herr con' hcon' hkind helig ci hci d hd hv
    rw [phase1Comps] at herr ⊢
    rcases List.mem_cons.mp hcon' with rfl | hcon''
    · have hg : con'.kind = Kind.constraintKind ∧ con'.active = true :=
        ⟨hkind, helig.1⟩
      rw [if_pos hg] at herr ⊢
      rw [if_neg (by rw [helig.2.1]; exact fun hc => Bool.true_eq_false.mp hc)] at herr ⊢
      rw [if_neg (by rw [helig.2.2]; exact fun hc => Bool.false_eq_true.mp hc)] at herr ⊢
      cases he : (phase1Cis m con' tol t0v a sup con'.setExcept acc ws).err with
      | some e => simp only [he] at herr; cases herr
      | none =>
        simp only [he] at herr ⊢
        exact phase1Comps_mono m tol t0v a sup rest _ _ d
          (phase1Cis_complete m con' tol t0v a sup con'.setExcept acc ws he ci hci d hd hv)
    · by_cases hg : con.kind = Kind.constraintKind ∧ con.active = true
      · rw [if_pos hg] at herr ⊢
        by_cases h1 : con.isExplicit = false
        · rw [if_pos h1] at herr ⊢
          exact ih _ _ herr con' hcon'' hkind helig ci hci d hd hv
        · rw [if_neg h1] at herr ⊢
          by_cases h2 : con.isImplicit = true
          · rw [if_pos h2] at herr ⊢
            exact ih _ _ herr con' hcon'' hkind helig ci hci d hd hv
          · rw [if_neg h2] at herr ⊢
            cases he : (phase1Cis m con tol t0v a sup con.setExcept acc ws).err with
            | some e => simp only [he] at herr; cases herr
            | none =>
              simp only [he] at herr ⊢
              exact ih _ _ herr con' hcon'' hkind helig ci hci d hd hv
      · rw [if_neg hg] at herr ⊢
        exact ih _ _ herr con' hcon'' hkind helig ci hci d hd hv

/-! ### Lemmas on the consistency checker: second loop (blocks) -/

theorem phase2Data_err (m : Model) (tol : Int) :
    ∀ (kids acc : List Nat) (e : IErr),
      phase2Data m tol kids acc = Except.error e → e = IErr.nesting := by
  intro kids
  induction kids with
  | nil => intro acc e h; cases h
  | cons d ds ih =>
    intro acc e h
    rw [phase2Data] at h
    by_cases hv : violatedB m tol d
    · rw [if_pos hv] at h
      by_cases hd : d ∈ acc
      · rw [if_pos hd] at h
        injection h with h1
        exact h1.symm
      · rw [if_neg hd] at h
        exact ih _ e h
    · rw [if_neg hv] at h
      exact ih _ e h

theorem phase2Data_mono (m : Model) (tol : Int) :
    ∀ (kids acc acc' : List Nat),
      phase2Data m tol kids acc = Except.ok acc' → ∀ x ∈ acc, x ∈ acc' := by
  intro kids
  induction kids with
  | nil =>
    intro acc acc' h x hx
    rw [phase2Data] at h
    injection h with h1
    rw [← h1]
    exact hx
  | cons d ds ih =>
    intro acc acc' h x hx
    rw [phase2Data] at h
    by_cases hv : violatedB m tol d
    · rw [if_pos hv] at h
      by_cases hd : d ∈ acc
      · rw [if_pos hd] at h; cases h
      · rw [if_neg hd] at h
        exact ih _ _ h x (List.mem_append_left _ hx)
    · rw [if_neg hv] at h
      exact ih _ _ h x hx

theorem phase2Data_sound (m : Model) (tol : Int) :
    ∀ (kids acc acc' : List Nat),
      phase2Data m tol kids acc = Except.ok acc' →
      ∀ x ∈ acc', x ∈ acc ∨ violatedB m tol x = true := by
  intro kids
  induction kids with
  | nil =>
    intro acc acc' h x hx
    rw [phase2Data] at h
    injection h with h1
    rw [← h1] at hx
    exact Or.inl hx
  | cons d ds ih =>
    intro acc acc' h x hx
    rw [phase2Data] at h
    by_cases hv : violatedB m tol d
    · rw [if_pos hv] at h
      by_cases hd : d ∈ acc
      · rw [if_pos hd] at h; cases h
      · rw [if_neg hd] at h
        rcases ih _ _ h x hx with h1 | h1
        · rcases List.mem_append.mp h1 with h2 | h2
          · exact Or.inl h2
          · rw [List.mem_singleton] at h2
            subst h2
            exact Or.inr hv
        · exact Or.inr h1
    · rw [if_neg hv] at h
      exact ih _ _ h x hx

theorem phase2Data_nocol (m : Model) (tol : Int) :
    ∀ (kids acc acc' : List Nat),
      phase2Data m tol kids acc = Except.ok acc' →
      ∀ d ∈ kids, violatedB m tol d = true → d ∉ acc := by
  intro kids
  induction kids with
  | nil => intro acc acc' _ d hd; cases hd
  | cons d0 ds ih =>
    intro acc acc' h d hd hv
    rw [phase2Data] at h
    by_cases hv0 : violatedB m tol d0
    · rw [if_pos hv0] at h
      by_cases hd0 : d0 ∈ acc
      · rw [if_pos hd0] at h; cases h
      · rw [if_neg hd0] at h
        rcases List.mem_cons.mp hd with rfl | hd'
        · exact hd0
        · intro hmem
          exact ih _ _ h d hd' hv (List.mem_append_left _ hmem)
    · rw [if_neg hv0] at h
      rcases List.mem_cons.mp hd with rfl | hd'
      · rw [hv] at hv0
        exact absurd rfl hv0
      · exact ih _ _ h d hd' hv

theorem phase2Data_complete (m : Model) (tol : Int) :
    ∀ (kids acc acc' : List Nat),
      phase2Data m tol kids acc = Except.ok acc' →
      ∀ d ∈ kids, violatedB m tol d = true → d ∈ acc' := by
  intro kids
  induction kids with
  | nil => intro acc acc' _ d hd; cases hd
  | cons d0 ds ih =>
    intro acc acc' h d hd hv
    rw [phase2Data] at h
    by_cases hv0 : violatedB m tol d0
    · rw [if_pos hv0] at h
      by_cases hd0 : d0 ∈ acc
      · rw [if_pos hd0] at h; cases h
      · rw [if_neg hd0] at h
        rcases List.mem_cons.mp hd with rfl | hd'
        · exact phase2Data_mono m tol ds _ _ h d
            (List.mem_append_right _ (List.mem_singleton.mpr rfl))
        · exact ih _ _ h d hd' hv
    · rw [if_neg hv0] at h
      rcases List.mem_cons.mp hd with rfl | hd'
      · rw [hv] at hv0
        exact absurd rfl hv0
      · exact ih _ _ h d hd' hv

theorem phase2Cis_err (m : Model) (blk : Component) (tol : Int) (t0v : Nat)
    (st : Finset Nat) :
    ∀ (cis : List Nat) (acc : List Nat) (e : IErr),
      (∀ ci ∈ cis, tblGet blk.lookupTbl ci t0v ≠ none) →
      phase2Cis m blk tol t0v st cis acc = Except.error e → e = IErr.nesting := by
  intro cis
  induction cis with
  | nil => intro acc e _ h; cases h
  | cons ci cis ih =>
    intro acc e htot h
    cases hf : tblGet blk.lookupTbl ci t0v with
    | none => exact absurd hf (htot ci (List.mem_cons_self _ _))
    | some bd =>
      rw [phase2Cis, hf] at h
      cases hpd : phase2Data m tol
          ((childrenOf m.children bd).filter (fun x => decide (x ∉ st))) acc with
      | error e' =>
        simp only [hpd] at h
        injection h with h1
        rw [← h1]
        exact phase2Data_err m tol _ acc e' hpd
      | ok acc2 =>
        simp only [hpd] at h
        exact ih _ e (fun ci' hci' => htot ci' (List.mem_cons_of_mem _ hci')) h

theorem phase2Cis_mono (m : Model) (blk : Component) (tol : Int) (t0v : Nat)
    (st : Finset Nat) :
    ∀ (cis : List Nat) (acc acc' : List Nat),
      phase2Cis m blk tol t0v st cis acc = Except.ok acc' → ∀ x ∈ acc, x ∈ acc' := by
  intro cis
  induction cis with
  | nil =>
    intro acc acc' h x hx
    rw [phase2Cis] at h
    injection h with h1
    rw [← h1]
    exact hx
  | cons ci cis ih =>
    intro acc acc' h x hx
    cases hf : tblGet blk.lookupTbl ci t0v with
    | none => rw [phase2Cis, hf] at h; cases h
    | some bd =>
      rw [phase2Cis, hf] at h
      cases hpd : phase2Data m tol
          ((childrenOf m.children bd).filter (fun y => decide (y ∉ st))) acc with
      | error e => simp only [hpd] at h; cases h
      | ok acc2 =>
        simp only [hpd] at h
        exact ih _ _ h x (phase2Data_mono m tol _ _ _ hpd x hx)

theorem phase2Cis_sound (m : Model) (blk : Component) (tol : Int) (t0v : Nat)
    (st : Finset Nat) :
    ∀ (cis : List Nat) (acc acc' : List Nat),
      phase2Cis m blk tol t0v st cis acc = Except.ok acc' →
      ∀ x ∈ acc', x ∈ acc ∨ violatedB m tol x = true := by
  intro cis
  induction cis with
  | nil =>
    intro acc acc' h x hx
    rw [phase2Cis] at h
    injection h with h1
    rw [← h1] at hx
    exact Or.inl hx
  | cons ci cis ih =>
    intro acc acc' h x hx
    cases hf : tblGet blk.lookupTbl ci t0v with
    | none => rw [phase2Cis, hf] at h; cases h
    | some bd =>
      rw [phase2Cis, hf] at h
      cases hpd : phase2Data m tol
          ((childrenOf m.children bd).filter (fun y => decide (y ∉ st))) acc with
      | error e => simp only [hpd] at h; cases h
      | ok acc2 =>
        simp only [hpd] at h
        rcases ih _ _ h x hx with h1 | h1
        · exact phase2Data_sound m tol _ _ _ hpd x h1
        · exact Or.inr h1

theorem phase2Cis_nocol (m : Model) (blk : Component) (tol : Int) (t0v : Nat)
    (st : Finset Nat) :
    ∀ (cis : List Nat) (acc acc' : List Nat),
      phase2Cis m blk tol t0v st cis acc = Except.ok acc' →
      ∀ ci ∈ cis, ∀ bd, tblGet blk.lookupTbl ci t0v = some bd →
        ∀ d ∈ (childrenOf m.children bd).filter (fun y => decide (y ∉ st)),
          violatedB m tol d = true → d ∉ acc := by
  intro cis
  induction cis with
  | nil => intro acc acc' _ ci hci; cases hci
  | cons ci cis ih =>
    intro acc acc' h ci' hci' bd hbd d hd hv
    cases hf : tblGet blk.lookupTbl ci t0v with
    | none => rw [phase2Cis, hf] at h; cases h
    | some bd0 =>
      rw [phase2Cis, hf] at h
      cases hpd : phase2Data m tol
          ((childrenOf m.children bd0).filter (fun y => decide (y ∉ st))) acc with
      | error e => simp only [hpd] at h; cases h
      | ok acc2 =>
        simp only [hpd] at h
        rcases List.mem_cons.mp hci' with rfl | hci''
        · rw [hf] at hbd
          have hbb : bd0 = bd := Option.some_inj.mp hbd
          subst hbb
          exact phase2Data_nocol m tol _ _ _ hpd d hd hv
        · intro hmem
          exact ih _ _ h ci' hci'' bd hbd d hd hv
            (phase2Data_mono m tol _ _ _ hpd d hmem)

theorem phase2Cis_complete (m : Model) (blk : Component) (tol : Int) (t0v : Nat)
    (st : Finset Nat) :
    ∀ (cis : List Nat) (acc acc' : List Nat),
      phase2Cis m blk tol t0v st cis acc = Except.ok acc' →
      ∀ ci ∈ cis, ∀ bd, tblGet blk.lookupTbl ci t0v = some bd →
        ∀ d ∈ (childrenOf m.children bd).filter (fun y => decide (y ∉ st)),
          violatedB m tol d = true → d ∈ acc' := by
  intro cis
  induction cis with
  | nil => intro acc acc' _ ci hci; cases hci
  | cons ci cis ih =>
    intro acc acc' h ci' hci' bd hbd d hd hv
    cases hf : tblGet blk.lookupTbl ci t0v with
    | none => rw [phase2Cis, hf] at h; cases h
    | some bd0 =>
      rw [phase2Cis, hf] at h
      cases hpd : phase2Data m tol
          ((childrenOf m.children bd0).filter (fun y => decide (y ∉ st))) acc with
      | error e => simp only [hpd] at h; cases h
      | ok acc2 =>
        simp only [hpd] at h
        rcases List.mem_cons.mp hci' with rfl | hci''
        · rw [hf] at hbd
          have hbb : bd0 = bd := Option.some_inj.mp hbd
          subst hbb
          exact phase2Cis_mono m blk tol t0v st cis _ _ h d
            (phase2Data_complete m tol _ _ _ hpd d hd hv)
        · exact ih _ _ h ci' hci'' bd hbd d hd hv

theorem phase2Comps_mono (m : Model) (tol : Int) (t0v : Nat) (st : Finset Nat) :
    ∀ (comps : List Component) (acc res : List Nat),
      phase2Comps m tol t0v st comps acc = Except.ok res → ∀ x ∈ acc, x ∈ res := by
  intro comps
  induction comps with
  | nil =>
    intro acc res h x hx
    rw [phase2Comps] at h
    injection h with h1
    rw [← h1]
    exact hx
  | cons blk rest ih =>
    intro acc res h x hx
    rw [phase2Comps] at h
    by_cases hg : blk.kind = Kind.blockKind ∧ blk.active = true
    · rw [if_pos hg] at h
      by_cases h1 : blk.isExplicit = false
      · rw [if_pos h1] at h; exact ih _ _ h x hx
      · rw [if_neg h1] at h
        by_cases h2 : blk.isImplicit = true
        · rw [if_pos h2] at h; exact ih _ _ h x hx
        · rw [if_neg h2] at h
          cases hpc : phase2Cis m blk tol t0v st blk.setExcept acc with
          | error e => simp only [hpc] at h; cases h
          | ok acc2 =>
            simp only [hpc] at h
            exact ih _ _ h x (phase2Cis_mono m blk tol t0v st _ _ _ hpc x hx)
    · rw [if_neg hg] at h
      exact ih _ _ h x hx

theorem phase2Comps_sound (m : Model) (tol : Int) (t0v : Nat) (st : Finset Nat) :
    ∀ (comps : List Component) (acc res : List Nat),
      phase2Comps m tol t0v st comps acc = Except.ok res →
      ∀ x ∈ res, x ∈ acc ∨ violatedB m tol x = true := by
  intro comps
  induction comps with
  | nil =>
    intro acc res h x hx
    rw [phase2Comps] at h
    injection h with h1
    rw [← h1] at hx
    exact Or.inl hx
  | cons blk rest ih =>
    intro acc res h x hx
    rw [phase2Comps] at h
    by_cases hg : blk.kind = Kind.blockKind ∧ blk.active = true
    · rw [if_pos hg] at h
      by_cases h1 : blk.isExplicit = false
      · rw [if_pos h1] at h; exact ih _ _ h x hx
      · rw [if_neg h1] at h
        by_cases h2 : blk.isImplicit = true
        · rw [if_pos h2] at h; exact ih _ _ h x hx
        · rw [if_neg h2] at h
          cases hpc : phase2Cis m blk tol t0v st blk.setExcept acc with
          | error e => simp only [hpc] at h; cases h
          | ok acc2 =>
            simp only [hpc] at h
            rcases ih _ _ h x hx with h3 | h3
            · exact phase2Cis_sound m blk tol t0v st _ _ _ hpc x h3
            · exact Or.inr h3
    · rw [if_neg hg] at h
      exact ih _ _ h x hx

theorem phase2Comps_err (m : Model) (tol : Int) (t0v : Nat) (st : Finset Nat) :
    ∀ (comps : List Component) (acc : List Nat) (e : IErr),
      (∀ blk ∈ comps, blk.kind = Kind.blockKind → elig blk →
        ∀ ci ∈ blk.setExcept, tblGet blk.lookupTbl ci t0v ≠ none) →
      phase2Comps m tol t0v st comps acc = Except.error e → e = IErr.nesting := by
  intro comps
  induction comps with
  | nil => intro acc e _ h; cases h
  | cons blk rest ih =>
    intro acc e htot h
    rw [phase2Comps] at h
    by_cases hg : blk.kind = Kind.blockKind ∧ blk.active = true
    · rw [if_pos hg] at h
      by_cases h1 : blk.isExplicit = false
      · rw [if_pos h1] at h
        exact ih _ e (fun b hb => htot b (List.mem_cons_of_mem _ hb)) h
      · rw [if_neg h1] at h
        by_cases h2 : blk.isImplicit = true
        · rw [if_pos h2] at h
          exact ih _ e (fun b hb => htot b (List.mem_cons_of_mem _ hb)) h
        · rw [if_neg h2] at h
          have helig : elig blk :=
            ⟨hg.2, by simpa using h1, by simpa using h2⟩
          cases hpc : phase2Cis m blk tol t0v st blk.setExcept acc with
          | error e' =>
            simp only [hpc] at h
            injection h with h3
            rw [← h3]
            exact phase2Cis_err m blk tol t0v st blk.setExcept acc e'
              (htot blk (List.mem_cons_self _ _) hg.1 helig) hpc
          | ok acc2 =>
            simp only [hpc] at h
            exact ih _ e (fun b hb => htot b (List.mem_cons_of_mem _ hb)) h
    · rw [if_neg hg] at h
      exact ih _ e (fun b hb => htot b (List.mem_cons_of_mem _ hb)) h

theorem phase2Comps_nocol (m : Model) (tol : Int) (t0v : Nat) (st : Finset Nat) :
    ∀ (comps : List Component) (acc res : List Nat),
      phase2Comps m tol t0v st comps acc = Except.ok res →
      ∀ blk ∈ comps, blk.kind = Kind.blockKind → elig blk →
        ∀ ci ∈ blk.setExcept, ∀ bd, tblGet blk.lookupTbl ci t0v = some bd →
          ∀ d ∈ (childrenOf m.children bd).filter (fun y => decide (y ∉ st)),
            violatedB m tol d = true → d ∉ acc := by
  intro comps
  induction comps with
  | nil => intro acc res _ blk hblk; cases hblk
  | cons blk rest ih =>
    intro acc res h blk' hblk' hkind helig ci hci bd hbd d hd hv
    rw [phase2Comps] at h
    rcases List.mem_cons.mp hblk' with rfl | hblk''
    · have hg : blk'.kind = Kind.blockKind ∧ blk'.active = true := ⟨hkind, helig.1⟩
      rw [if_pos hg] at h
      rw [if_neg (by rw [helig.2.1]; exact fun hc => Bool.true_eq_false.mp hc)] at h
      rw [if_neg (by rw [helig.2.2]; exact fun hc => Bool.false_eq_true.mp hc)] at h
      cases hpc : phase2Cis m blk' tol t0v st blk'.setExcept acc with
      | error e => simp only [hpc] at h; cases h
      | ok acc2 =>
        exact phase2Cis_nocol m blk' tol t0v st _ _ _ hpc ci hci bd hbd d hd hv
    · by_cases hg : blk.kind = Kind.blockKind ∧ blk.active = true
      · rw [if_pos hg] at h
        by_cases h1 : blk.isExplicit = false
        · rw [if_pos h1] at h
          exact ih _ _ h blk' hblk'' hkind helig ci hci bd hbd d hd hv
        · rw [if_neg h1] at h
          by_cases h2 : blk.isImplicit = true
          · rw [if_pos h2] at h
            exact ih _ _ h blk' hblk'' hkind helig ci hci bd hbd d hd hv
          · rw [if_neg h2] at h
            cases hpc : phase2Cis m blk tol t0v st blk.setExcept acc with
            | error e => simp only [hpc] at h; cases h
            | ok acc2 =>
              simp only [hpc] at h
              intro hmem
              exact ih _ _ h blk' hblk'' hkind helig ci hci bd hbd d hd hv
                (phase2Cis_mono m blk tol t0v st _ _ _ hpc d hmem)
      · rw [if_neg hg] at h
        exact ih _ _ h blk' hblk'' hkind helig ci hci bd hbd d hd hv

theorem phase2Comps_pairwise (m : Model) (tol : Int) (t0v : Nat) (st : Finset Nat) :
    ∀ (comps : List Component) (acc res : List Nat),
      phase2Comps m tol t0v st comps acc = Except.ok res →
      ∀ b1 ∈ comps, ∀ b2 ∈ comps, b1 ≠ b2 →
        b1.kind = Kind.blockKind → elig b1 →
        b2.kind = Kind.blockKind → elig b2 →
        ∀ ci1 ∈ b1.setExcept, ∀ ci2 ∈ b2.setExcept, ∀ bd1 bd2,
          tblGet b1.lookupTbl ci1 t0v = some bd1 →
          tblGet b2.lookupTbl ci2 t0v = some bd2 →
          ∀ d, violatedB m tol d = true →
            d ∈ (childrenOf m.children bd1).filter (fun y => decide (y ∉ st)) →
            d ∈ (childrenOf m.children bd2).filter (fun y => decide (y ∉ st)) →
            False := by
  intro comps
  induction comps with
  | nil => intro acc res _ b1 hb1; cases hb1
  | cons blk rest ih =>
    intro acc res h b1 hb1 b2 hb2 hne hk1 he1 hk2 he2 ci1 hci1 ci2 hci2 bd1 bd2
      hbd1 hbd2 d hv hm1 hm2
    rw [phase2Comps] at h
    rcases List.mem_cons.mp hb1 with rfl | hb1'
    · have hg : b1.kind = Kind.blockKind ∧ b1.active = true := ⟨hk1, he1.1⟩
      rw [if_pos hg] at h
      rw [if_neg (by rw [he1.2.1]; exact fun hc => Bool.true_eq_false.mp hc)] at h
      rw [if_neg (by rw [he1.2.2]; exact fun hc => Bool.false_eq_true.mp hc)] at h
      cases hpc : phase2Cis m b1 tol t0v st b1.setExcept acc with
      | error e => simp only [hpc] at h; cases h
      | ok acc2 =>
        simp only [hpc] at h
        rcases List.mem_cons.mp hb2 with heq2 | hb2'
        · exact hne heq2.symm
        · have hdacc2 : d ∈ acc2 :=
            phase2Cis_complete m b1 tol t0v st _ _ _ hpc ci1 hci1 bd1 hbd1 d hm1 hv
          exact phase2Comps_nocol m tol t0v st rest _ _ h b2 hb2' hk2 he2
            ci2 hci2 bd2 hbd2 d hm2 hv hdacc2
    · rcases List.mem_cons.mp hb2 with rfl | hb2'
      · have hg : b2.kind = Kind.blockKind ∧ b2.active = true := ⟨hk2, he2.1⟩
        rw [if_pos hg] at h
        rw [if_neg (by rw [he2.2.1]; exact fun hc => Bool.true_eq_false.mp hc)] at h
        rw [if_neg (by rw [he2.2.2]; exact fun hc => Bool.false_eq_true.mp hc)] at h
        cases hpc : phase2Cis m b2 tol t0v st b2.setExcept acc with
        | error e => simp only [hpc] at h; cases h
        | ok acc2 =>
          simp only [hpc] at h
          have hdacc2 : d ∈ acc2 :=
            phase2Cis_complete m b2 tol t0v st _ _ _ hpc ci2 hci2 bd2 hbd2 d hm2 hv
          exact phase2Comps_nocol m tol t0v st rest _ _ h b1 hb1' hk1 he1
            ci1 hci1 bd1 hbd1 d hm1 hv hdacc2
      · by_cases hg : blk.kind = Kind.blockKind ∧ blk.active = true
        · rw [if_pos hg] at h
          by_cases h1 : blk.isExplicit = false
          · rw [if_pos h1] at h
            exact ih _ _ h b1 hb1' b2 hb2' hne hk1 he1 hk2 he2 ci1 hci1 ci2 hci2
              bd1 bd2 hbd1 hbd2 d hv hm1 hm2
          · rw [if_neg h1] at h
            by_cases h2 : blk.isImplicit = true
            · rw [if_pos h2] at h
              exact ih _ _ h b1 hb1' b2 hb2' hne hk1 he1 hk2 he2 ci1 hci1 ci2 hci2
                bd1 bd2 hbd1 hbd2 d hv hm1 hm2
            · rw [if_neg h2] at h
              cases hpc : phase2Cis m blk tol t0v st blk.setExcept acc with
              | error e => simp only [hpc] at h; cases h
              | ok acc2 =>
                simp only [hpc] at h
                exact ih _ _ h b1 hb1' b2 hb2' hne hk1 he1 hk2 he2 ci1 hci1 ci2 hci2
                  bd1 bd2 hbd1 hbd2 d hv hm1 hm2
        · rw [if_neg hg] at h
          exact ih _ _ h b1 hb1' b2 hb2' hne hk1 he1 hk2 he2 ci1 hci1 ci2 hci2
            bd1 bd2 hbd1 hbd2 d hv hm1 hm2

/-! ### Claim theorems (C5, C9, C10) -/

/-- C5: if some requested point is not a member of the target set,
`deactivate_model_at` raises the invalid-point `ValueError` and no
ComponentData's active flag is modified (the returned state is the incoming
state, and nothing was recorded): all requested points are validated before
any deactivation is attempted. -/
theorem deactivate_model_at_invalid_point_raises (m : Model) (cset : CSet)
    (ptsArg : PtsArg) (a sup : Bool) (st : Finset Nat) (pt : Nat)
    (h1 : pt ∈ ptsArg.toList) (h2 : pt ∉ cset.pts) :
    (deactivate_model_at m cset ptsArg a sup st).state = st ∧
    (deactivate_model_at m cset ptsArg a sup st).deact = [] ∧
    ∃ q ∈ ptsArg.toList, q ∉ cset.pts ∧
      (deactivate_model_at m cset ptsArg a sup st).err = some (DErr.invalidPoint q) := by
  cases hf : firstInvalid cset.pts ptsArg.toList with
  | none =>
    rw [firstInvalid_eq_none] at hf
    exact absurd (hf pt h1) h2
  | some q =>
    obtain ⟨hq1, hq2⟩ := firstInvalid_eq_some _ _ _ hf
    unfold deactivate_model_at
    simp only [hf]
    exact ⟨trivial, trivial, q, hq1, hq2, rfl⟩

theorem deactivate_model_at_invalid_point_raises_witness :
    ((5 : Nat) ∈ (PtsArg.single 5).toList ∧ (5 : Nat) ∉ (CSet.mk "T" [1] "s").pts) ∧
    ((deactivate_model_at ⟨[], [], []⟩ (CSet.mk "T" [1] "s") (PtsArg.single 5)
        true false ∅).state = ∅ ∧
      (deactivate_model_at ⟨[], [], []⟩ (CSet.mk "T" [1] "s") (PtsArg.single 5)
        true false ∅).deact = [] ∧
      ∃ q ∈ (PtsArg.single 5).toList, q ∉ (CSet.mk "T" [1] "s").pts ∧
        (deactivate_model_at ⟨[], [], []⟩ (CSet.mk "T" [1] "s") (PtsArg.single 5)
          true false ∅).err = some (DErr.invalidPoint q)) :=
  ⟨⟨by decide, by decide⟩,
    deactivate_model_at_invalid_point_raises ⟨[], [], []⟩ (CSet.mk "T" [1] "s")
      (PtsArg.single 5) true false ∅ 5 (by decide) (by decide)⟩

/-- C9: calling `deactivate_model_at` a second time with the same arguments,
starting from the activation state the first call produced, returns exactly
the same result as the first call: the final activation state is unchanged,
the same dictionary and warnings are produced, and in particular when the
first call completed without error the second call also completes without
error even though every ComponentData it touches is already inactive. -/
theorem deactivate_model_at_idempotent (m : Model) (cset : CSet) (p : PtsArg)
    (a sup : Bool) (st : Finset Nat) :
    deactivate_model_at m cset p a sup
        (deactivate_model_at m cset p a sup st).state =
      deactivate_model_at m cset p a sup st := by
  rw [deactivate_model_at_shift m cset p a sup st]
  rw [deactivate_model_at_shift m cset p a sup
    (st ∪ (deactivate_model_at m cset p a sup ∅).state)]
  simp [Finset.union_assoc]

/-- C10: a bare point argument is treated exactly as the one-element list
containing it (`if type(pts) is not list: pts = [pts]`), and for a valid
point the returned dictionary has that point as its sole key. -/
theorem deactivate_model_at_scalar_point_arg (m : Model) (cset : CSet) (p : Nat)
    (a sup : Bool) (st : Finset Nat) (h : p ∈ cset.pts) :
    deactivate_model_at m cset (PtsArg.single p) a sup st =
      deactivate_model_at m cset (PtsArg.list [p]) a sup st ∧
    (deactivate_model_at m cset (PtsArg.single p) a sup st).deact.map Prod.fst = [p] := by
  refine ⟨rfl, ?_⟩
  unfold deactivate_model_at
  have hf : firstInvalid cset.pts (PtsArg.single p).toList = none := by
    rw [firstInvalid_eq_none]
    intro q hq
    simp [PtsArg.toList] at hq
    subst hq
    exact h
  simp only [hf]
  rw [keys_procComps]
  simp [initMap, PtsArg.toList]

theorem deactivate_model_at_scalar_point_arg_witness :
    ((2 : Nat) ∈ (CSet.mk "T" [1, 2] "s").pts) ∧
    (deactivate_model_at ⟨[], [], []⟩ (CSet.mk "T" [1, 2] "s") (PtsArg.single 2)
        true false ∅ =
      deactivate_model_at ⟨[], [], []⟩ (CSet.mk "T" [1, 2] "s") (PtsArg.list [2])
        true false ∅ ∧
      (deactivate_model_at ⟨[], [], []⟩ (CSet.mk "T" [1, 2] "s") (PtsArg.single 2)
        true false ∅).deact.map Prod.fst = [2]) :=
  ⟨by decide,
    deactivate_model_at_scalar_point_arg ⟨[], [], []⟩ (CSet.mk "T" [1, 2] "s") 2
      true false ∅ (by decide)⟩

/-- C1: with `allow_skip` left at its default, `deactivate_model_at` sets
`active = False` on, and records in its returned dictionary, exactly the
ComponentData instances located at `(complement index, point)` for components
that are explicitly indexed by the target set and not implicitly indexed
through an ancestor target-set-indexed block (see `elig`, `contribAt`,
`contrib`), for every complement index and every requested point; data
reachable only through such an ancestor (implicitly indexed components) are
left untouched. -/
theorem deactivate_model_at_exact_targets (m : Model) (cset : CSet)
    (ptsArg : PtsArg) (sup : Bool) (st : Finset Nat)
    (hinj : IdFaithful m)
    (hval : ∀ pt ∈ ptsArg.toList, pt ∈ cset.pts) :
    (deactivate_model_at m cset ptsArg true sup st).err = none ∧
    (∀ d, d ∈ (deactivate_model_at m cset ptsArg true sup st).state ↔
       d ∈ st ∨ contrib m.comps ptsArg.toList d) ∧
    (∀ pt ∈ ptsArg.toList, ∀ d,
       d ∈ mpGet (deactivate_model_at m cset ptsArg true sup st).deact pt ↔
         contribAt m.comps pt d) := by
  obtain ⟨he, hs, hm, -⟩ := deactivate_model_at_char m cset ptsArg sup st hinj hval
  refine ⟨he, hs, ?_⟩
  intro pt hpt d
  rw [hm pt d]
  simp [hpt]

theorem deactivate_model_at_exact_targets_witness :
    (IdFaithful
        ⟨[⟨1, "c1", Kind.constraintKind, true, true, false, [0],
            [((0, 2), 10), ((0, 3), 11)]⟩,
          ⟨2, "c2", Kind.constraintKind, true, true, true, [0], [((0, 2), 20)]⟩],
          [], []⟩ ∧
      ∀ pt ∈ (PtsArg.list [2]).toList, pt ∈ (CSet.mk "T" [1, 2, 3] "s").pts) ∧
    ((deactivate_model_at
        ⟨[⟨1, "c1", Kind.constraintKind, true, true, false, [0],
            [((0, 2), 10), ((0, 3), 11)]⟩,
          ⟨2, "c2", Kind.constraintKind, true, true, true, [0], [((0, 2), 20)]⟩],
          [], []⟩ (CSet.mk "T" [1, 2, 3] "s") (PtsArg.list [2]) true false ∅).err = none ∧
     (∀ d, d ∈ (deactivate_model_at
        ⟨[⟨1, "c1", Kind.constraintKind, true, true, false, [0],
            [((0, 2), 10), ((0, 3), 11)]⟩,
          ⟨2, "c2", Kind.constraintKind, true, true, true, [0], [((0, 2), 20)]⟩],
          [], []⟩ (CSet.mk "T" [1, 2, 3] "s") (PtsArg.list [2]) true false ∅).state ↔
        d ∈ (∅ : Finset Nat) ∨ contrib
          [⟨1, "c1", Kind.constraintKind, true, true, false, [0],
            [((0, 2), 10), ((0, 3), 11)]⟩,
           ⟨2, "c2", Kind.constraintKind, true, true, true, [0], [((0, 2), 20)]⟩]
          (PtsArg.list [2]).toList d) ∧
     (∀ pt ∈ (PtsArg.list [2]).toList, ∀ d,
        d ∈ mpGet (deactivate_model_at
          ⟨[⟨1, "c1", Kind.constraintKind, true, true, false, [0],
              [((0, 2), 10), ((0, 3), 11)]⟩,
            ⟨2, "c2", Kind.constraintKind, true, true, true, [0], [((0, 2), 20)]⟩],
            [], []⟩ (CSet.mk "T" [1, 2, 3] "s") (PtsArg.list [2]) true false ∅).deact pt ↔
          contribAt
            [⟨1, "c1", Kind.constraintKind, true, true, false, [0],
              [((0, 2), 10), ((0, 3), 11)]⟩,
             ⟨2, "c2", Kind.constraintKind, true, true, true, [0], [((0, 2), 20)]⟩]
            pt d)) :=
  ⟨⟨by decide, by decide⟩,
    deactivate_model_at_exact_targets
      ⟨[⟨1, "c1", Kind.constraintKind, true, true, false, [0],
          [((0, 2), 10), ((0, 3), 11)]⟩,
        ⟨2, "c2", Kind.constraintKind, true, true, true, [0], [((0, 2), 20)]⟩],
        [], []⟩ (CSet.mk "T" [1, 2, 3] "s") (PtsArg.list [2]) false ∅
      (by decide) (by decide)⟩

/-- C8: starting from an all-active model, deactivating at any list of valid
points and then reactivating exactly the ComponentData objects listed in the
returned dictionary restores every activation flag to active (the inactive
set becomes empty again). -/
theorem deactivate_model_at_roundtrip (m : Model) (cset : CSet) (ptsArg : PtsArg)
    (sup : Bool) (hinj : IdFaithful m)
    (hval : ∀ pt ∈ ptsArg.toList, pt ∈ cset.pts) :
    (deactivate_model_at m cset ptsArg true sup ∅).err = none ∧
    eraseList (allIds (deactivate_model_at m cset ptsArg true sup ∅).deact)
      (deactivate_model_at m cset ptsArg true sup ∅).state = ∅ := by
  obtain ⟨he, hs, -, ha⟩ := deactivate_model_at_char m cset ptsArg sup ∅ hinj hval
  refine ⟨he, ?_⟩
  ext x
  rw [mem_eraseList]
  simp only [Finset.not_mem_empty, iff_false]
  rintro ⟨h1, h2⟩
  rcases (hs x).mp h1 with h3 | h3
  · exact Finset.not_mem_empty x h3
  · exact h2 ((ha x).mpr h3)

theorem deactivate_model_at_roundtrip_witness :
    (IdFaithful
        ⟨[⟨1, "c1", Kind.constraintKind, true, true, false, [0],
            [((0, 2), 10), ((0, 3), 11)]⟩], [], []⟩ ∧
      ∀ pt ∈ (PtsArg.list [2, 3]).toList, pt ∈ (CSet.mk "T" [1, 2, 3] "s").pts) ∧
    ((deactivate_model_at
        ⟨[⟨1, "c1", Kind.constraintKind, true, true, false, [0],
            [((0, 2), 10), ((0, 3), 11)]⟩], [], []⟩
        (CSet.mk "T" [1, 2, 3] "s") (PtsArg.list [2, 3]) true false ∅).err = none ∧
      eraseList
        (allIds (deactivate_model_at
          ⟨[⟨1, "c1", Kind.constraintKind, true, true, false, [0],
              [((0, 2), 10), ((0, 3), 11)]⟩], [], []⟩
          (CSet.mk "T" [1, 2, 3] "s") (PtsArg.list [2, 3]) true false ∅).deact)
        (deactivate_model_at
          ⟨[⟨1, "c1", Kind.constraintKind, true, true, false, [0],
              [((0, 2), 10), ((0, 3), 11)]⟩], [], []⟩
          (CSet.mk "T" [1, 2, 3] "s") (PtsArg.list [2, 3]) true false ∅).state = ∅) :=
  ⟨⟨by decide, by decide⟩,
    deactivate_model_at_roundtrip
      ⟨[⟨1, "c1", Kind.constraintKind, true, true, false, [0],
          [((0, 2), 10), ((0, 3), 11)]⟩], [], []⟩
      (CSet.mk "T" [1, 2, 3] "s") (PtsArg.list [2, 3]) false (by decide) (by decide)⟩

/-- C7: when the target set's discretization scheme tag is neither
`LAGRANGE-RADAU` nor `BACKWARD Difference`,
`solve_consistent_initial_conditions` raises `NotImplementedError` before any
deactivation occurs: every ComponentData's activation flag is unchanged. -/
theorem solve_consistent_unsupported_scheme {α : Type} (m : Model) (time : CSet)
    (res : α) (st : Finset Nat)
    (h1 : time.scheme ≠ "LAGRANGE-RADAU") (h2 : time.scheme ≠ "BACKWARD Difference") :
    solve_consistent_initial_conditions m time res st =
      (st, Except.error (SErr.unsupportedScheme time.scheme)) := by
  unfold solve_consistent_initial_conditions
  rw [if_pos ⟨h1, h2⟩]

theorem solve_consistent_unsupported_scheme_witness :
    ((CSet.mk "T" [1, 2] "FORWARD Difference").scheme ≠ "LAGRANGE-RADAU" ∧
      (CSet.mk "T" [1, 2] "FORWARD Difference").scheme ≠ "BACKWARD Difference") ∧
    solve_consistent_initial_conditions ⟨[], [], []⟩
        (CSet.mk "T" [1, 2] "FORWARD Difference") (0 : Nat) {5} =
      ({5}, Except.error (SErr.unsupportedScheme
        (CSet.mk "T" [1, 2] "FORWARD Difference").scheme)) :=
  ⟨⟨by decide, by decide⟩,
    solve_consistent_unsupported_scheme ⟨[], [], []⟩
      (CSet.mk "T" [1, 2] "FORWARD Difference") (0 : Nat) {5} (by decide) (by decide)⟩

/-- C3 counterexample: the claim "the pre-call activation state is restored"
fails when a ComponentData that was already inactive before the call is
recorded by the deactivation pass — the final reactivation turns it active.
Concrete input: one eligible constraint whose data at the second time point
(id 10) is already inactive; the scheme is supported and the solve returns
normally, yet the returned state is `∅`, not the incoming `{10}`. -/
theorem solve_consistent_restore_counterexample :
    (solve_consistent_initial_conditions
      ⟨[⟨1, "c", Kind.constraintKind, true, true, false, [0], [((0, 2), 10)]⟩], [], []⟩
      (CSet.mk "T" [1, 2] "LAGRANGE-RADAU") (0 : Nat) {10}).2 = Except.ok 0 ∧
    (solve_consistent_initial_conditions
      ⟨[⟨1, "c", Kind.constraintKind, true, true, false, [0], [((0, 2), 10)]⟩], [], []⟩
      (CSet.mk "T" [1, 2] "LAGRANGE-RADAU") (0 : Nat) {10}).1 ≠ {10} := by
  decide

/-- C3 (amended): whenever the scheme is one of the two supported ones and
the solver's solve call returns normally,
`solve_consistent_initial_conditions` deactivates eligible components at
every point of the target set except its first point — the recorded
dictionary holds, at each non-initial point, exactly the eligible data there,
and records nothing at the first point — afterwards reactivates every
ComponentData it recorded, which restores the pre-call activation state
provided every recorded ComponentData was active before the call, and
returns the solver's result object unmodified without interpreting it. -/
theorem solve_consistent_initial_conditions_spec {α : Type} (m : Model)
    (time : CSet) (res : α) (st : Finset Nat) (hinj : IdFaithful m)
    (hscheme : ¬(time.scheme ≠ "LAGRANGE-RADAU" ∧ time.scheme ≠ "BACKWARD Difference"))
    (hfresh : ∀ d, contrib m.comps time.pts.tail d → d ∉ st) :
    (solve_consistent_initial_conditions m time res st).2 = Except.ok res ∧
    (solve_consistent_initial_conditions m time res st).1 = st ∧
    (∀ pt ∈ time.pts.tail, ∀ d,
      d ∈ mpGet (deactivate_model_at m time (PtsArg.list time.pts.tail)
          true false st).deact pt ↔ contribAt m.comps pt d) ∧
    (time.pts.Nodup →
      ∀ d, d ∉ mpGet (deactivate_model_at m time (PtsArg.list time.pts.tail)
          true false st).deact time.pts.headI) := by
  have hval : ∀ pt ∈ (PtsArg.list time.pts.tail).toList, pt ∈ time.pts := by
    intro pt hpt
    exact List.tail_subset _ hpt
  obtain ⟨he, hs, hm, ha⟩ :=
    deactivate_model_at_char m time (PtsArg.list time.pts.tail) false st hinj hval
  unfold solve_consistent_initial_conditions
  rw [if_neg hscheme]
  simp only [he]
  refine ⟨trivial, ?_, ?_, ?_⟩
  · ext x
    rw [mem_reactivateAll]
    constructor
    · rintro ⟨hx, hall⟩
      rcases (hs x).mp hx with h | h
      · exact h
      · obtain ⟨pt, hpt, hca⟩ := h
        exact absurd ((hm pt x).mpr ⟨hpt, hca⟩) (hall pt hpt)
    · intro hx
      refine ⟨(hs x).mpr (Or.inl hx), ?_⟩
      intro t ht hmem
      exact hfresh x ⟨t, ht, ((hm t x).mp hmem).2⟩ hx
  · intro pt hpt d
    rw [hm pt d]
    simp only [PtsArg.toList]
    simp [hpt]
  · intro hnd d hmem
    have h1 := ((hm time.pts.headI d).mp hmem).1
    simp only [PtsArg.toList] at h1
    cases hp : time.pts with
    | nil => rw [hp] at h1; cases h1
    | cons hh tt =>
      rw [hp] at h1 hnd
      simp only [List.headI, List.tail_cons] at h1
      exact (List.nodup_cons.mp hnd).1 h1

theorem solve_consistent_initial_conditions_spec_witness :
    (IdFaithful
        ⟨[⟨1, "c", Kind.constraintKind, true, true, false, [0], [((0, 2), 10)]⟩], [], []⟩ ∧
      ¬((CSet.mk "T" [1, 2] "LAGRANGE-RADAU").scheme ≠ "LAGRANGE-RADAU" ∧
        (CSet.mk "T" [1, 2] "LAGRANGE-RADAU").scheme ≠ "BACKWARD Difference") ∧
      (∀ d, contrib [⟨1, "c", Kind.constraintKind, true, true, false, [0], [((0, 2), 10)]⟩]
          (CSet.mk "T" [1, 2] "LAGRANGE-RADAU").pts.tail d → d ∉ (∅ : Finset Nat))) ∧
    ((solve_consistent_initial_conditions
        ⟨[⟨1, "c", Kind.constraintKind, true, true, false, [0], [((0, 2), 10)]⟩], [], []⟩
        (CSet.mk "T" [1, 2] "LAGRANGE-RADAU") (7 : Nat) ∅).2 = Except.ok 7 ∧
      (solve_consistent_initial_conditions
        ⟨[⟨1, "c", Kind.constraintKind, true, true, false, [0], [((0, 2), 10)]⟩], [], []⟩
        (CSet.mk "T" [1, 2] "LAGRANGE-RADAU") (7 : Nat) ∅).1 = ∅ ∧
      (∀ pt ∈ (CSet.mk "T" [1, 2] "LAGRANGE-RADAU").pts.tail, ∀ d,
        d ∈ mpGet (deactivate_model_at
            ⟨[⟨1, "c", Kind.constraintKind, true, true, false, [0], [((0, 2), 10)]⟩], [], []⟩
            (CSet.mk "T" [1, 2] "LAGRANGE-RADAU")
            (PtsArg.list (CSet.mk "T" [1, 2] "LAGRANGE-RADAU").pts.tail)
            true false ∅).deact pt ↔
          contribAt [⟨1, "c", Kind.constraintKind, true, true, false, [0], [((0, 2), 10)]⟩]
            pt d) ∧
      ((CSet.mk "T" [1, 2] "LAGRANGE-RADAU").pts.Nodup →
        ∀ d, d ∉ mpGet (deactivate_model_at
            ⟨[⟨1, "c", Kind.constraintKind, true, true, false, [0], [((0, 2), 10)]⟩], [], []⟩
            (CSet.mk "T" [1, 2] "LAGRANGE-RADAU")
            (PtsArg.list (CSet.mk "T" [1, 2] "LAGRANGE-RADAU").pts.tail)
            true false ∅).deact (CSet.mk "T" [1, 2] "LAGRANGE-RADAU").pts.headI)) :=
  ⟨⟨by decide, by decide, fun d _ => Finset.not_mem_empty d⟩,
    solve_consistent_initial_conditions_spec
      ⟨[⟨1, "c", Kind.constraintKind, true, true, false, [0], [((0, 2), 10)]⟩], [], []⟩
      (CSet.mk "T" [1, 2] "LAGRANGE-RADAU") (7 : Nat) ∅ (by decide) (by decide)
      (fun d _ => Finset.not_mem_empty d)⟩

/-- C6: with `allow_skip=False` and all requested points valid, when some
eligible component has a `(complement index, point)` combination with no
backing ComponentData, `deactivate_model_at` raises the propagated `KeyError`;
everything deactivated before the failure stays deactivated — no rollback:
the incoming inactive set is preserved, and every combination of every
eligible component of a prefix whose lookups are all total is in the final
inactive set. -/
theorem deactivate_model_at_missing_index (m : Model) (cset : CSet)
    (ptsArg : PtsArg) (sup : Bool) (st : Finset Nat) (pre post : List Component)
    (hsplit : m.comps = pre ++ post)
    (hinj : IdFaithful m)
    (hval : ∀ pt ∈ ptsArg.toList, pt ∈ cset.pts)
    (hpre : ∀ c ∈ pre, elig c → ∀ ci ∈ c.setExcept, ∀ pt ∈ ptsArg.toList,
      tblGet c.lookupTbl ci pt ≠ none)
    (hmiss : ∃ c ∈ m.comps, elig c ∧ ∃ ci ∈ c.setExcept, ∃ pt ∈ ptsArg.toList,
      tblGet c.lookupTbl ci pt = none) :
    (∃ nm ci pt, (deactivate_model_at m cset ptsArg false sup st).err =
      some (DErr.keyError nm ci pt)) ∧
    st ⊆ (deactivate_model_at m cset ptsArg false sup st).state ∧
    (∀ c ∈ pre, elig c → ∀ ci ∈ c.setExcept, ∀ pt ∈ ptsArg.toList, ∀ d,
      tblGet c.lookupTbl ci pt = some d →
      d ∈ (deactivate_model_at m cset ptsArg false sup st).state) := by
  have hf : firstInvalid cset.pts ptsArg.toList = none :=
    (firstInvalid_eq_none cset.pts ptsArg.toList).mpr hval
  unfold deactivate_model_at
  simp only [hf]
  refine ⟨?_, ?_, ?_⟩
  · cases herr : (procComps m.comps [] ptsArg.toList false sup st
        (initMap ptsArg.toList) []).err with
    | none =>
      exfalso
      obtain ⟨c, hc, helig, ci, hci, pt, hpt, hnone⟩ := hmiss
      exact procComps_total_of_ok ptsArg.toList sup m.comps [] st
        (initMap ptsArg.toList) [] hinj (by intro c2 _ hcid; cases hcid) herr
        c hc helig ci hci pt hpt hnone
    | some e =>
      obtain ⟨nm, ci, pt, heq⟩ :=
        procComps_err_keyError m.comps ptsArg.toList false sup [] st
          (initMap ptsArg.toList) [] e herr
      exact ⟨nm, ci, pt, by rw [heq]⟩
  · exact procComps_state_mono m.comps [] ptsArg.toList false sup st
      (initMap ptsArg.toList) []
  · intro c hc helig ci hci pt hpt d hd
    rw [hsplit]
    have hinj2 : ∀ c1 ∈ pre ++ post, ∀ c2 ∈ pre ++ post, c1.cid = c2.cid → c1 = c2 :=
      fun c1 h1 c2 h2 =>
        hinj c1 (by rw [hsplit]; exact h1) c2 (by rw [hsplit]; exact h2)
    exact procComps_prefix ptsArg.toList false sup post pre [] st
      (initMap ptsArg.toList) [] hinj2 (by intro c2 _ hcid; cases hcid) hpre
      c hc helig ci hci pt hpt d hd

theorem deactivate_model_at_missing_index_witness :
    (([⟨1, "c1", Kind.constraintKind, true, true, false, [0], [((0, 2), 10)]⟩,
       ⟨2, "c2", Kind.constraintKind, true, true, false, [0], []⟩] : List Component) =
        [⟨1, "c1", Kind.constraintKind, true, true, false, [0], [((0, 2), 10)]⟩] ++
        [⟨2, "c2", Kind.constraintKind, true, true, false, [0], []⟩] ∧
      IdFaithful
        ⟨[⟨1, "c1", Kind.constraintKind, true, true, false, [0], [((0, 2), 10)]⟩,
          ⟨2, "c2", Kind.constraintKind, true, true, false, [0], []⟩], [], []⟩ ∧
      (∀ pt ∈ (PtsArg.list [2]).toList, pt ∈ (CSet.mk "T" [1, 2] "s").pts) ∧
      (∀ c ∈ ([⟨1, "c1", Kind.constraintKind, true, true, false, [0],
          [((0, 2), 10)]⟩] : List Component), elig c →
        ∀ ci ∈ c.setExcept, ∀ pt ∈ (PtsArg.list [2]).toList,
          tblGet c.lookupTbl ci pt ≠ none) ∧
      (∃ c ∈ ([⟨1, "c1", Kind.constraintKind, true, true, false, [0], [((0, 2), 10)]⟩,
          ⟨2, "c2", Kind.constraintKind, true, true, false, [0], []⟩] : List Component),
        elig c ∧ ∃ ci ∈ c.setExcept, ∃ pt ∈ (PtsArg.list [2]).toList,
          tblGet c.lookupTbl ci pt = none)) ∧
    ((∃ nm ci pt,
        (deactivate_model_at
          ⟨[⟨1, "c1", Kind.constraintKind, true, true, false, [0], [((0, 2), 10)]⟩,
            ⟨2, "c2", Kind.constraintKind, true, true, false, [0], []⟩], [], []⟩
          (CSet.mk "T" [1, 2] "s") (PtsArg.list [2]) false false ∅).err =
          some (DErr.keyError nm ci pt)) ∧
      (∅ : Finset Nat) ⊆
        (deactivate_model_at
          ⟨[⟨1, "c1", Kind.constraintKind, true, true, false, [0], [((0, 2), 10)]⟩,
            ⟨2, "c2", Kind.constraintKind, true, true, false, [0], []⟩], [], []⟩
          (CSet.mk "T" [1, 2] "s") (PtsArg.list [2]) false false ∅).state ∧
      (∀ c ∈ ([⟨1, "c1", Kind.constraintKind, true, true, false, [0],
          [((0, 2), 10)]⟩] : List Component), elig c →
        ∀ ci ∈ c.setExcept, ∀ pt ∈ (PtsArg.list [2]).toList, ∀ d,
          tblGet c.lookupTbl ci pt = some d →
          d ∈ (deactivate_model_at
            ⟨[⟨1, "c1", Kind.constraintKind, true, true, false, [0], [((0, 2), 10)]⟩,
              ⟨2, "c2", Kind.constraintKind, true, true, false, [0], []⟩], [], []⟩
            (CSet.mk "T" [1, 2] "s") (PtsArg.list [2]) false false ∅).state)) :=
  ⟨⟨by decide, by decide, by decide, by decide, by decide⟩,
    deactivate_model_at_missing_index
      ⟨[⟨1, "c1", Kind.constraintKind, true, true, false, [0], [((0, 2), 10)]⟩,
        ⟨2, "c2", Kind.constraintKind, true, true, false, [0], []⟩], [], []⟩
      (CSet.mk "T" [1, 2] "s") (PtsArg.list [2]) false ∅
      [⟨1, "c1", Kind.constraintKind, true, true, false, [0], [((0, 2), 10)]⟩]
      [⟨2, "c2", Kind.constraintKind, true, true, false, [0], []⟩]
      (by decide) (by decide) (by decide) (by decide) (by decide)⟩

/-- C2: with `t0` left at its default (the target set's first point), for an
active, explicitly-and-not-implicitly time-indexed Constraint-kind component
and a complement index whose lookup at `t0` yields ComponentData `d`, a
successful `get_inconsistent_initial_conditions` call includes `d` in its
result if and only if `max(body - upper, lower - body)` at `d` exceeds the
tolerance; constraints within tolerance are not flagged. -/
theorem get_inconsistent_flags_iff (m : Model) (time : CSet) (tol : Int)
    (a sup : Bool) (st : Finset Nat) (ws : List String) (res : List Nat)
    (hok : get_inconsistent_initial_conditions m time tol none a sup st =
      (ws, Except.ok res))
    (con : Component) (hcon : con ∈ m.comps)
    (hkind : con.kind = Kind.constraintKind) (helig : elig con)
    (ci : Nat) (hci : ci ∈ con.setExcept) (d : Nat)
    (hd : tblGet con.lookupTbl ci time.pts.headI = some d) :
    d ∈ res ↔ violatedB m tol d = true := by
  unfold get_inconsistent_initial_conditions at hok
  simp only at hok
  cases he1 : (phase1Comps m tol time.pts.headI a sup m.comps [] []).err with
  | some e =>
    simp only [he1] at hok
    have h2 := congrArg Prod.snd hok
    simp at h2
  | none =>
    simp only [he1] at hok
    cases he2 : phase2Comps m tol time.pts.headI st m.comps
        (phase1Comps m tol time.pts.headI a sup m.comps [] []).acc with
    | error e =>
      simp only [he2] at hok
      have h2 := congrArg Prod.snd hok
      simp at h2
    | ok res' =>
      simp only [he2] at hok
      have h2 := congrArg Prod.snd hok
      simp only at h2
      injection h2 with h3
      subst h3
      constructor
      · intro hmem
        rcases phase2Comps_sound m tol time.pts.headI st m.comps _ _ he2 d hmem
          with h4 | h4
        · rcases phase1Comps_sound m tol time.pts.headI a sup m.comps [] [] d h4
            with h5 | h5
          · cases h5
          · exact h5
        · exact h4
      · intro hv
        exact phase2Comps_mono m tol time.pts.headI st m.comps _ _ he2 d
          (phase1Comps_complete m tol time.pts.headI a sup m.comps [] [] he1
            con hcon hkind helig ci hci d hd hv)

theorem get_inconsistent_flags_iff_witness :
    (get_inconsistent_initial_conditions
        ⟨[⟨1, "c", Kind.constraintKind, true, true, false, [0], [((0, 1), 10)]⟩],
          [(10, (5, 0, 0))], []⟩
        (CSet.mk "T" [1, 2] "s") 0 none true false ∅ = ([], Except.ok [10]) ∧
      (⟨1, "c", Kind.constraintKind, true, true, false, [0], [((0, 1), 10)]⟩ :
        Component) ∈
        (⟨[⟨1, "c", Kind.constraintKind, true, true, false, [0], [((0, 1), 10)]⟩],
          [(10, (5, 0, 0))], []⟩ : Model).comps ∧
      tblGet [((0, 1), 10)] 0 (CSet.mk "T" [1, 2] "s").pts.headI = some 10) ∧
    ((10 : Nat) ∈ [10] ↔
      violatedB
        ⟨[⟨1, "c", Kind.constraintKind, true, true, false, [0], [((0, 1), 10)]⟩],
          [(10, (5, 0, 0))], []⟩ 0 10 = true) :=
  ⟨⟨by decide, by decide, by decide⟩,
    get_inconsistent_flags_iff
      ⟨[⟨1, "c", Kind.constraintKind, true, true, false, [0], [((0, 1), 10)]⟩],
        [(10, (5, 0, 0))], []⟩
      (CSet.mk "T" [1, 2] "s") 0 true false ∅ [] [10] (by decide)
      ⟨1, "c", Kind.constraintKind, true, true, false, [0], [((0, 1), 10)]⟩
      (by decide) (by decide) (by decide) 0 (by decide) 10 (by decide)⟩

/-- C4 counterexample: a model with two distinct Block-kind components
explicitly (and not implicitly) indexed by the target set whose data at the
initial point own the same constraint ComponentData — the modelled
observable form of a target-set-indexed block nested in another — on which
`get_inconsistent_initial_conditions` returns normally (with an empty result)
instead of raising `UnsupportedNestingError`, because the shared constraint
is consistent and the nesting check only fires on a violated datum met
twice. -/
theorem get_inconsistent_nested_blocks_counterexample :
    nestedExplicitBlocks
      ⟨[⟨1, "b1", Kind.blockKind, true, true, false, [0], [((0, 1), 100)]⟩,
        ⟨2, "b2", Kind.blockKind, true, true, false, [0], [((0, 1), 200)]⟩],
        [(500, (0, 0, 0))], [(100, [500]), (200, [500])]⟩ 1 ∧
    (get_inconsistent_initial_conditions
      ⟨[⟨1, "b1", Kind.blockKind, true, true, false, [0], [((0, 1), 100)]⟩,
        ⟨2, "b2", Kind.blockKind, true, true, false, [0], [((0, 1), 200)]⟩],
        [(500, (0, 0, 0))], [(100, [500]), (200, [500])]⟩
      (CSet.mk "T" [1] "s") 0 none true false ∅).2 = Except.ok [] := by
  decide

/-- C4 (amended): `get_inconsistent_initial_conditions` fails with the
nested-blocks `ValueError` precisely when a ComponentData found inconsistent
during the block recursion is already present in the result set; in
particular, when two distinct eligible Block-kind components both reach a
common violated active constraint datum at the initial point (the observable
effect of a target-set-indexed block nested in another) and every eligible
block's data lookup at the initial point succeeds, the call fails with
`UnsupportedNestingError` rather than returning.  A nested configuration
whose shared constraints are all within tolerance returns normally (see the
counterexample). -/
theorem get_inconsistent_nesting_raises (m : Model) (time : CSet) (tol : Int)
    (sup : Bool) (st : Finset Nat)
    (htot : ∀ blk ∈ m.comps, blk.kind = Kind.blockKind → elig blk →
      ∀ ci ∈ blk.setExcept, tblGet blk.lookupTbl ci time.pts.headI ≠ none)
    (b1 b2 : Component) (hb1 : b1 ∈ m.comps) (hb2 : b2 ∈ m.comps) (hne : b1 ≠ b2)
    (hk1 : b1.kind = Kind.blockKind) (he1 : elig b1)
    (hk2 : b2.kind = Kind.blockKind) (he2 : elig b2)
    (ci1 : Nat) (hci1 : ci1 ∈ b1.setExcept) (ci2 : Nat) (hci2 : ci2 ∈ b2.setExcept)
    (bd1 bd2 : Nat)
    (hbd1 : tblGet b1.lookupTbl ci1 time.pts.headI = some bd1)
    (hbd2 : tblGet b2.lookupTbl ci2 time.pts.headI = some bd2)
    (d : Nat) (hv : violatedB m tol d = true)
    (hd1 : d ∈ childrenOf m.children bd1) (hd2 : d ∈ childrenOf m.children bd2)
    (hdst : d ∉ st) :
    (get_inconsistent_initial_conditions m time tol none true sup st).2 =
      Except.error IErr.nesting := by
  unfold get_inconsistent_initial_conditions
  simp only
  have hp1 := phase1Comps_ok m tol time.pts.headI sup m.comps [] []
  simp only [hp1]
  cases hp2 : phase2Comps m tol time.pts.headI st m.comps
      (phase1Comps m tol time.pts.headI true sup m.comps [] []).acc with
  | ok res =>
    exfalso
    refine phase2Comps_pairwise m tol time.pts.headI st m.comps _ _ hp2 b1 hb1 b2 hb2
      hne hk1 he1 hk2 he2 ci1 hci1 ci2 hci2 bd1 bd2 hbd1 hbd2 d hv ?_ ?_
    · rw [List.mem_filter]
      exact ⟨hd1, by simpa using hdst⟩
    · rw [List.mem_filter]
      exact ⟨hd2, by simpa using hdst⟩
  | error e =>
    have hnest : e = IErr.nesting :=
      phase2Comps_err m tol time.pts.headI st m.comps _ e htot hp2
    simp only [hp2, hnest]

theorem get_inconsistent_nesting_raises_witness :
    ((∀ blk ∈ (⟨[⟨1, "b1", Kind.blockKind, true, true, false, [0], [((0, 1), 100)]⟩,
          ⟨2, "b2", Kind.blockKind, true, true, false, [0], [((0, 1), 200)]⟩],
          [(500, (5, 0, 0))], [(100, [500]), (200, [500])]⟩ : Model).comps,
        blk.kind = Kind.blockKind → elig blk →
        ∀ ci ∈ blk.setExcept,
          tblGet blk.lookupTbl ci (CSet.mk "T" [1] "s").pts.headI ≠ none) ∧
      violatedB
        ⟨[⟨1, "b1", Kind.blockKind, true, true, false, [0], [((0, 1), 100)]⟩,
          ⟨2, "b2", Kind.blockKind, true, true, false, [0], [((0, 1), 200)]⟩],
          [(500, (5, 0, 0))], [(100, [500]), (200, [500])]⟩ 0 500 = true) ∧
    (get_inconsistent_initial_conditions
      ⟨[⟨1, "b1", Kind.blockKind, true, true, false, [0], [((0, 1), 100)]⟩,
        ⟨2, "b2", Kind.blockKind, true, true, false, [0], [((0, 1), 200)]⟩],
        [(500, (5, 0, 0))], [(100, [500]), (200, [500])]⟩
      (CSet.mk "T" [1] "s") 0 none true false ∅).2 = Except.error IErr.nesting :=
  ⟨⟨by decide, by decide⟩,
    get_inconsistent_nesting_raises
      ⟨[⟨1, "b1", Kind.blockKind, true, true, false, [0], [((0, 1), 100)]⟩,
        ⟨2, "b2", Kind.blockKind, true, true, false, [0], [((0, 1), 200)]⟩],
        [(500, (5, 0, 0))], [(100, [500]), (200, [500])]⟩
      (CSet.mk "T" [1] "s") 0 false ∅ (by decide)
      ⟨1, "b1", Kind.blockKind, true, true, false, [0], [((0, 1), 100)]⟩
      ⟨2, "b2", Kind.blockKind, true, true, false, [0], [((0, 1), 200)]⟩
      (by decide) (by decide) (by decide) (by decide) (by decide) (by decide)
      (by decide) 0 (by decide) 0 (by decide) 100 200 (by decide) (by decide)
      500 (by decide) (by decide) (by decide) (by decide)⟩

end InitCond

section Sanity
open InitCond

example :
    (deactivate_model_at
      ⟨[⟨1, "c", Kind.constraintKind, true, true, false, [0], [((0, 2), 10)]⟩], [], []⟩
      ⟨"T", [1, 2, 3], "s"⟩ (PtsArg.single 2) true false ∅).state = {10} := by
  decide

example :
    (deactivate_model_at
      ⟨[⟨1, "c", Kind.constraintKind, true, true, false, [0], [((0, 2), 10)]⟩], [], []⟩
      ⟨"T", [1, 2, 3], "s"⟩ (PtsArg.single 7) true false ∅).err =
      some (DErr.invalidPoint 7) := by
  decide

example :
    (get_inconsistent_initial_conditions
      ⟨[⟨1, "c", Kind.constraintKind, true, true, false, [0], [((0, 1), 10)]⟩],
        [(10, (5, 0, 0))], []⟩
      ⟨"T", [1, 2, 3], "s"⟩ 0 none true false ∅).2 = Except.ok [10] := by
  decide

example :
    (solve_consistent_initial_conditions
      ⟨[⟨1, "c", Kind.constraintKind, true, true, false, [0],
          [((0, 1), 10), ((0, 2), 11), ((0, 3), 12)]⟩], [], []⟩
      ⟨"T", [1, 2, 3], "LAGRANGE-RADAU"⟩ (37 : Nat) ∅) = (∅, Except.ok 37) := by
  decide

example :
    (solve_consistent_initial_conditions
      ⟨[], [], []⟩ ⟨"T", [1, 2, 3], "FORWARD"⟩ (37 : Nat) {5}).2 =
      Except.error (SErr.unsupportedScheme "FORWARD") := by
  decide

end Sanity
